import Mathlib

set_option autoImplicit false

/-!
Verification of the HAR reverse-engineering backend.

This file gives a shallow embedding, in Lean 4, of the core of the
`reverse-engineer-api` Python backend (HAR parsing and filtering,
request prioritization, curl-command generation with sensitive-header
masking, candidate compression for the external oracle, interpretation
of the oracle's answer, curl execution result normalization, and curl
response decoding), together with theorems checking the repository's
specification against the embedded code.

Modelling conventions:
* Python `str` values are modelled as `List Char` (`Str` below); all the
  character-level operations (`strip`, `lower`, `split`, `startswith`,
  substring search, `replace`) are defined from scratch on lists so that
  they are executable and amenable to induction.
* Python dicts that are built by key-assignment are modelled as
  association lists with insert-or-overwrite-in-place semantics
  (`dictInsert`), matching CPython's insertion-order behaviour.
* JSON values are modelled by the inductive `Json`; JSON numbers are
  modelled as integers (the claims under scrutiny never depend on
  floating-point JSON numbers).
* Percent-decoding of query strings is modelled byte-wise (multi-byte
  UTF-8 percent sequences are out of scope of every claim).
* The LLM/oracle and the spawned curl process are modelled at their
  boundary: the oracle's reply and the process outcome are inputs to the
  embedded functions.
-/

/-- Python strings are modelled as lists of characters. -/
abbrev Str := List Char

/-- The Python whitespace set used by `str.strip` and by the regex
class `\s`: space, tab, newline, carriage return, vertical tab, form feed. -/
def isPyWs (c : Char) : Bool :=
  c = ' ' || c = '\t' || c = '\n' || c = '\r' || c = Char.ofNat 11 || c = Char.ofNat 12

/-- Python `str.strip()`: drop whitespace from both ends. -/
def pyStrip (s : Str) : Str :=
  ((s.dropWhile isPyWs).reverse.dropWhile isPyWs).reverse

/-- Python `str.lower()` (ASCII case folding, which is all the code relies on). -/
def lowerStr (s : Str) : Str := s.map Char.toLower

/-- `hasPre p s` holds when `p` is a prefix of `s` (Python `s.startswith(p)`). -/
def hasPre : Str → Str → Bool
  | [], _ => true
  | _ :: _, [] => false
  | p :: ps, c :: cs => p = c && hasPre ps cs

/-- `hasSub p s` holds when `p` occurs as a contiguous substring of `s`
(Python `p in s`). -/
def hasSub (p : Str) : Str → Bool
  | [] => decide (p = [])
  | c :: cs => hasPre p (c :: cs) || hasSub p cs

/-- Python `s.replace(c, rep)` for a single-character pattern. -/
def replaceChar (c : Char) (rep : Str) (s : Str) : Str :=
  s.flatMap (fun d => if d = c then rep else [d])

/-- Insert-or-overwrite into an association list, keeping the position of an
existing key (CPython dict assignment `d[k] = v`). -/
def dictInsert (d : List (Str × Str)) (k v : Str) : List (Str × Str) :=
  match d with
  | [] => [(k, v)]
  | (k', v') :: rest => if k' = k then (k, v) :: rest else (k', v') :: dictInsert rest k v

/-- First-match lookup in an association list (CPython `d.get(k)`; keys are
unique in every dict the code builds). -/
def dictGet? (d : List (Str × Str)) (k : Str) : Option Str :=
  (d.find? (fun p => p.1 = k)).map (·.2)

/-- Insert only when the key is absent (used to model taking the first value
per key from `parse_qs`). -/
def dictInsertIfNew (d : List (Str × Str)) (k v : Str) : List (Str × Str) :=
  if (d.find? (fun p => p.1 = k)).isSome then d else d ++ [(k, v)]

/-- Python `s.split(c)` for a single-character separator: always returns at
least one part, with empty parts kept. -/
def splitOnChar (c : Char) : Str → List Str
  | [] => [[]]
  | d :: rest =>
    if d = c then [] :: splitOnChar c rest
    else
      match splitOnChar c rest with
      | [] => [[d]]
      | p :: ps => (d :: p) :: ps

/-- Python `s.split(sep, 1)` for a non-empty separator, reported as `none`
when the separator does not occur. -/
def splitOnceSub? (sep : Str) : Str → Option (Str × Str)
  | [] => none
  | c :: rest =>
    if hasPre sep (c :: rest) then some ([], (c :: rest).drop sep.length)
    else (splitOnceSub? sep rest).map (fun p => (c :: p.1, p.2))

/-- Python `s.split(c, 1)` for a single-character separator, `none` when the
separator does not occur. -/
def splitOnceChar? (c : Char) : Str → Option (Str × Str)
  | [] => none
  | d :: rest =>
    if d = c then some ([], rest)
    else (splitOnceChar? c rest).map (fun p => (d :: p.1, p.2))

/-- Everything before the first occurrence of `c` (the whole string when `c`
is absent). -/
def takeUntilChar (c : Char) (s : Str) : Str := s.takeWhile (fun d => d ≠ c)

/-- Everything after the first occurrence of `c`, when present. -/
def afterFirstChar? (c : Char) (s : Str) : Option Str :=
  (splitOnceChar? c s).map (·.2)

/-- Decimal digit characters. -/
def isDigit (c : Char) : Bool := '0' ≤ c && c ≤ '9'

/-- The decimal digit character for `d % 10` style arguments. -/
def digitChar : Nat → Char
  | 0 => '0' | 1 => '1' | 2 => '2' | 3 => '3' | 4 => '4'
  | 5 => '5' | 6 => '6' | 7 => '7' | 8 => '8' | _ => '9'

/-- Decimal rendering of a natural number (Python `str(n)` / `'%d'`). -/
def natDigits (n : Nat) : Str :=
  if _h : n < 10 then [digitChar n]
  else natDigits (n / 10) ++ [digitChar (n % 10)]
decreasing_by exact Nat.div_lt_self (by omega) (by omega)

/-- Value of a digit character. -/
def digitVal (c : Char) : Nat := c.toNat - 48

/-- Python `int(s)` on a string of decimal digits. -/
def digitsToNat (s : Str) : Nat := s.foldl (fun a c => 10 * a + digitVal c) 0

/-- Decimal rendering of an integer. -/
def intRepr (n : Int) : Str :=
  if n < 0 then '-' :: natDigits n.natAbs else natDigits n.natAbs

/-- Join a list of strings with a separator (Python `sep.join`). -/
def sepJoin (sep : Str) : List Str → Str
  | [] => []
  | [x] => x
  | x :: y :: ys => x ++ sep ++ sepJoin sep (y :: ys)

/-- The single-quote character, written by code point to keep source text
free of quote characters. -/
def sqc : Char := Char.ofNat 39

/-- The left and right curly-brace characters, written by code point. -/
def lbrace : Char := Char.ofNat 123

/-- The right curly-brace character. -/
def rbrace : Char := Char.ofNat 125

/-!
## Data model

`Exchange` embeds the dictionaries produced by
`HARParser._parse_entry` (src/backend/app/services/har_parser.py).
-/

/-- One captured request/response pair, as built by `_parse_entry`. -/
structure Exchange where
  index : Nat
  method : Str
  url : Str
  headers : List (Str × Str)
  query_params : List (Str × Str)
  body : Str
  body_size : Nat
  response_status : Int
  response_content_type : Str
  response_size : Int
  response_body : Str
deriving DecidableEq, Repr

/-- The configuration fields of `Settings` (src/backend/app/config.py) that
the core logic reads. -/
structure Settings where
  MAX_REQUESTS_TO_ANALYZE : Nat
  EXCLUDE_MIME_TYPES : List Str
  INCLUDE_STATUS_CODES : List Int
deriving Repr

/-- The default configuration values from `config.py`. -/
def defaultSettings : Settings where
  MAX_REQUESTS_TO_ANALYZE := 50
  EXCLUDE_MIME_TYPES :=
    [ "text/html".data, "text/css".data, "application/javascript".data,
      "text/javascript".data, "image/".data, "font/".data, "audio/".data,
      "video/".data ]
  INCLUDE_STATUS_CODES := [200, 201, 202, 204, 206]

/-- JSON values (numbers restricted to integers; see the module comment). -/
inductive Json where
  | null
  | bool (b : Bool)
  | num (n : Int)
  | str (s : Str)
  | arr (items : List Json)
  | obj (fields : List (Str × Json))

/-- Dict lookup on a parsed JSON object; with duplicate keys the last wins,
as in `json.loads`. -/
def jGet? (fields : List (Str × Json)) (k : Str) : Option Json :=
  (fields.reverse.find? (fun p => p.1 = k)).map (·.2)

/-- `fields.get(k, dflt)` expecting a string: absent keys produce the
default, and a present value of a non-string JSON type is treated as an
entry-level failure of `_parse_entry` (see the module comment). -/
def jStrField? (fields : List (Str × Json)) (k : Str) (dflt : Str) : Option Str :=
  match jGet? fields k with
  | none => some dflt
  | some (.str s) => some s
  | some _ => none

/-- `fields.get(k, 0)` expecting an integer. -/
def jIntField? (fields : List (Str × Json)) (k : Str) (dflt : Int) : Option Int :=
  match jGet? fields k with
  | none => some dflt
  | some (.num n) => some n
  | some _ => none

/-- `fields.get(k, {})` expecting an object: a present non-object value makes
the subsequent attribute access raise in Python, failing the entry. -/
def jObjField? (fields : List (Str × Json)) (k : Str) :
    Option (List (Str × Json)) :=
  match jGet? fields k with
  | none => some []
  | some (.obj f) => some f
  | some _ => none

/-- `fields.get(k, [])` expecting an array. -/
def jArrField? (fields : List (Str × Json)) (k : Str) : Option (List Json) :=
  match jGet? fields k with
  | none => some []
  | some (.arr xs) => some xs
  | some _ => none

/-!
## HAR parser (src/backend/app/services/har_parser.py)
-/

/-- The header-collection loop of `_parse_entry`: each element must be an
object (a non-dict element makes the attribute access raise, failing the
entry); headers with blank name or value are dropped; names are lowercased;
assignment overwrites in place (`headers[name.lower()] = value`). -/
def collectHeadersFold (hs : List Json) : Option (List (Str × Str)) :=
  hs.foldl
    (fun acc h =>
      match acc, h with
      | some d, .obj hf => do
        let name ← jStrField? hf "name".data []
        let value ← jStrField? hf "value".data []
        if name ≠ [] ∧ value ≠ [] then
          some (dictInsert d (lowerStr name) value)
        else
          some d
      | _, _ => none)
    (some [])

/-- Plus-to-space translation done by `parse_qs` before percent-decoding. -/
def plusToSpace (s : Str) : Str := s.map (fun c => if c = '+' then ' ' else c)

/-- Hexadecimal digit test. -/
def isHex (c : Char) : Bool :=
  ('0' ≤ c && c ≤ '9') || ('a' ≤ c && c ≤ 'f') || ('A' ≤ c && c ≤ 'F')

/-- Value of a hexadecimal digit. -/
def hexVal (c : Char) : Nat :=
  if '0' ≤ c && c ≤ '9' then c.toNat - 48
  else if 'a' ≤ c && c ≤ 'f' then c.toNat - 87
  else c.toNat - 55

/-- Percent-decoding (`urllib.parse.unquote`), byte-wise; invalid percent
escapes are left untouched, as in Python. -/
def pctDecode : Str → Str
  | [] => []
  | '%' :: a :: b :: rest =>
    if isHex a ∧ isHex b then Char.ofNat (16 * hexVal a + hexVal b) :: pctDecode rest
    else '%' :: pctDecode (a :: b :: rest)
  | c :: rest => c :: pctDecode rest

/-- `urllib.parse.parse_qs` followed by the comprehension
`{k: v[0] if v else '' for k, v in ...}`: split on `&`, skip fields without
`=` or with a blank value (`keep_blank_values=False`), decode, and keep the
first value per key. -/
def parseQS (q : Str) : List (Str × Str) :=
  (splitOnChar '&' q).foldl
    (fun acc field =>
      match splitOnceChar? '=' field with
      | none => acc
      | some (n, v) =>
        if v = [] then acc
        else dictInsertIfNew acc (pctDecode (plusToSpace n)) (pctDecode (plusToSpace v)))
    []

/-- The query component of a URL as extracted by `urlparse`: the part after
the first `?`, fragment (after the first `#`) excluded. -/
def urlQuery (u : Str) : Str :=
  ((afterFirstChar? '?' (takeUntilChar '#' u)).getD [])

/-- The body extraction of `_parse_entry`:
`post_data = request.get('postData', {})` then
`body = post_data.get('text', '') if post_data else ''`. A present truthy
non-object `postData` makes the attribute access raise, failing the entry. -/
def extractBody (reqF : List (Str × Json)) : Option Str :=
  match jGet? reqF "postData".data with
  | none => some []
  | some (.obj []) => some []
  | some (.obj pf) => jStrField? pf "text".data []
  | some .null => some []
  | some (.bool false) => some []
  | some (.num 0) => some []
  | some (.str []) => some []
  | some (.arr []) => some []
  | some _ => none

/-- `HARParser._parse_entry`: parse one HAR entry into an `Exchange`;
`none` both for the silent `return None` on a missing URL and for the
caught per-entry exceptions. -/
def parse_entry (entry : Json) (i : Nat) : Option Exchange := do
  let .obj entryF := entry | none
  let reqF ← jObjField? entryF "request".data
  let respF ← jObjField? entryF "response".data
  let method ← jStrField? reqF "method".data "GET".data
  let url ← jStrField? reqF "url".data []
  if url = [] then none
  else do
    let headersJ ← jArrField? reqF "headers".data
    let headers ← collectHeadersFold headersJ
    let query_params := if urlQuery url ≠ [] then parseQS (urlQuery url) else []
    let body ← extractBody reqF
    let response_status ← jIntField? respF "status".data 0
    let contentF ← jObjField? respF "content".data
    let response_content_type ← jStrField? contentF "mimeType".data []
    let response_size ← jIntField? contentF "size".data 0
    let rbody ← jStrField? contentF "text".data []
    let response_body :=
      if rbody.length > 1000 then rbody.take 1000 ++ "...".data else rbody
    some
      { index := i, method := method, url := url, headers := headers,
        query_params := query_params, body := body, body_size := body.length,
        response_status := response_status,
        response_content_type := response_content_type,
        response_size := response_size, response_body := response_body }

/-- The content types treated as API-like by `_should_include_request`. -/
def api_content_types : List Str :=
  [ "application/json".data, "application/xml".data, "text/xml".data,
    "text/plain".data ]

/-- `HARParser._should_include_request`: the inclusion predicate, in the
exact short-circuit order of the source. -/
def should_include_request (st : Settings) (r : Exchange) : Bool :=
  if r.response_status ∉ st.INCLUDE_STATUS_CODES then false
  else
    let content_type := lowerStr r.response_content_type
    if st.EXCLUDE_MIME_TYPES.any (fun ex => hasPre (lowerStr ex) content_type) then
      false
    else if api_content_types.any (fun ct => hasPre ct content_type) then true
    else if content_type = [] ∧ 200 ≤ r.response_status ∧ r.response_status < 300 then
      true
    else if r.query_params ≠ [] then true
    else if (r.method = "POST".data ∨ r.method = "PUT".data ∨ r.method = "PATCH".data)
        ∧ r.body ≠ [] then
      true
    else false

/-- The `priority_score` closure of `HARParser._prioritize_requests`,
written exactly as the source accumulates it. -/
def priority_score (r : Exchange) : Nat :=
  let score : Nat := 0
  let score := if hasSub "json".data (lowerStr r.response_content_type)
    then score + 10 else score
  let score := if 200 ≤ r.response_status ∧ r.response_status < 300
    then score + 5 else score
  let score := if 100 < r.response_size ∧ r.response_size < 10000
    then score + 3 else score
  let score := if ["api".data, "v1".data, "v2".data, "rest".data, "graphql".data].any
      (fun k => hasSub k (lowerStr r.url))
    then score + 8 else score
  let score := if r.method ≠ "GET".data then score + 2 else score
  score

/-- The comparison realized by `sorted(..., key=priority_score,
reverse=True)`: `a` may come before `b` when its score is at least `b`'s. -/
def priorityGe (a b : Exchange) : Bool := priority_score b ≤ priority_score a

/-- `HARParser._prioritize_requests`: stable sort by descending score
(`sorted(..., key=priority_score, reverse=True)` — CPython's sort is stable
and `reverse=True` keeps equal-key elements in their original order),
truncated to the cap. -/
def prioritize_requests (st : Settings) (reqs : List Exchange) : List Exchange :=
  (reqs.mergeSort priorityGe).take st.MAX_REQUESTS_TO_ANALYZE

/-- `HARParser._validate_har_structure`. -/
def validate_har_structure (har : Json) : Bool :=
  match har with
  | .obj fields =>
    match jGet? fields "log".data with
    | some (.obj logF) =>
      match jGet? logF "entries".data with
      | some (.arr _) => true
      | _ => false
    | _ => false
  | _ => false

/-- The failure modes of `parse_har_file`, all raised as `HARParsingError`
in the source (the dynamic message text is irrelevant to the claims). -/
inductive HarError where
  | invalidJson
  | invalidStructure
deriving DecidableEq, Repr

/-- The capping step at the end of `parse_har_file`: prioritize only when
the filtered count exceeds the configured maximum. -/
def applyLimit (st : Settings) (reqs : List Exchange) : List Exchange :=
  if reqs.length > st.MAX_REQUESTS_TO_ANALYZE then prioritize_requests st reqs
  else reqs

/-- The loop body of `parse_har_file`: parse one enumerated entry, keep it
only when the inclusion predicate accepts it, and absorb per-entry failures
as `none`. -/
def guardInclude (st : Settings) (p : Nat × Json) : Option Exchange :=
  match parse_entry p.2 p.1 with
  | some r => if should_include_request st r then some r else none
  | none => none

/-- `HARParser.parse_har_file`. The input is `none` when the bytes do not
decode/parse as JSON (the `json.JSONDecodeError` path), otherwise the parsed
JSON document. Per-entry failures are skipped, then the survivors are
filtered and capped. -/
def parse_har_file (st : Settings) (input : Option Json) :
    Except HarError (List Exchange) :=
  match input with
  | none => .error .invalidJson
  | some har =>
    if validate_har_structure har then
      let entries :=
        match har with
        | .obj fields =>
          match jGet? fields "log".data with
          | some (.obj logF) =>
            match jGet? logF "entries".data with
            | some (.arr es) => es
            | _ => []
          | _ => []
        | _ => []
      let parsed := entries.enum.filterMap (guardInclude st)
      .ok (applyLimit st parsed)
    else .error .invalidStructure

/-!
## JSON text (the parts of `json.loads` / `json.dumps(..., indent=2)` the
curl generator and the prompt builder rely on)
-/

/-- The whitespace characters allowed between JSON tokens. -/
def jsonSkipWs (s : Str) : Str :=
  s.dropWhile (fun c => c = ' ' || c = '\t' || c = '\n' || c = '\r')

/-- Four hexadecimal digits, as in a `\uXXXX` escape. -/
def hex4Val? : Str → Option (Nat × Str)
  | a :: b :: c :: d :: rest =>
    if isHex a ∧ isHex b ∧ isHex c ∧ isHex d then
      some ((((hexVal a * 16 + hexVal b) * 16 + hexVal c) * 16 + hexVal d), rest)
    else none
  | _ => none

/-- Parse the remainder of a JSON string literal (after the opening quote),
returning the decoded content and the rest of the input. Raw control
characters are rejected (`json.loads` is strict); lone surrogate escapes are
not modelled (no claim depends on them). -/
def jsonStringRest (fuel : Nat) (s : Str) : Option (Str × Str) :=
  match fuel, s with
  | 0, _ => none
  | _, [] => none
  | fuel + 1, c :: rest =>
    if c = '"' then some ([], rest)
    else if c = '\\' then
      match rest with
      | [] => none
      | e :: rest2 =>
        let simple : Option Char :=
          if e = '"' then some '"'
          else if e = '\\' then some '\\'
          else if e = '/' then some '/'
          else if e = 'b' then some (Char.ofNat 8)
          else if e = 'f' then some (Char.ofNat 12)
          else if e = 'n' then some '\n'
          else if e = 'r' then some '\r'
          else if e = 't' then some '\t'
          else none
        match simple with
        | some d =>
          (jsonStringRest fuel rest2).map (fun p => (d :: p.1, p.2))
        | none =>
          if e = 'u' then
            match hex4Val? rest2 with
            | none => none
            | some (n, rest3) =>
              if 0xD800 ≤ n ∧ n ≤ 0xDBFF then
                match rest3 with
                | '\\' :: 'u' :: rest4 =>
                  match hex4Val? rest4 with
                  | some (m, rest5) =>
                    if 0xDC00 ≤ m ∧ m ≤ 0xDFFF then
                      (jsonStringRest fuel rest5).map
                        (fun p =>
                          (Char.ofNat (0x10000 + (n - 0xD800) * 0x400 + (m - 0xDC00)) :: p.1,
                           p.2))
                    else none
                  | none => none
                | _ => none
              else if 0xDC00 ≤ n ∧ n ≤ 0xDFFF then none
              else (jsonStringRest fuel rest3).map (fun p => (Char.ofNat n :: p.1, p.2))
          else none
    else if c.toNat < 0x20 then none
    else (jsonStringRest fuel rest).map (fun p => (c :: p.1, p.2))

/-- Parse a JSON integer numeral (sign and digits, leading zeros rejected);
fails on fraction/exponent parts since floats are not modelled. -/
def jsonIntRest? (s : Str) : Option (Int × Str) :=
  let (neg, s1) : Bool × Str :=
    match s with
    | '-' :: t => (true, t)
    | _ => (false, s)
  let ds := s1.takeWhile isDigit
  let rest := s1.drop ds.length
  if ds = [] then none
  else if ds.length > 1 ∧ ds.headI = '0' then none
  else
    match rest with
    | '.' :: _ => none
    | 'e' :: _ => none
    | 'E' :: _ => none
    | _ =>
      let v : Int := digitsToNat ds
      some (if neg then -v else v, rest)

/-- Insert-or-overwrite for parsed JSON objects (duplicate keys: last value
wins, first position kept, as for a CPython dict). -/
def dictInsertJ (d : List (Str × Json)) (k : Str) (v : Json) : List (Str × Json) :=
  match d with
  | [] => [(k, v)]
  | (k', v') :: rest => if k' = k then (k, v) :: rest else (k', v') :: dictInsertJ rest k v

mutual

/-- Recursive-descent JSON value parser (fuel-indexed; the fuel is
decremented on every call and `input.length + 1` is always enough). -/
def jsonVal : Nat → Str → Option (Json × Str)
  | 0, _ => none
  | fuel + 1, s =>
    let s := jsonSkipWs s
    match s with
    | [] => none
    | c :: rest =>
      if c = '"' then
        (jsonStringRest (rest.length + 1) rest).map (fun p => (.str p.1, p.2))
      else if c = lbrace then jsonObjRest fuel (jsonSkipWs rest) []
      else if c = '[' then jsonArrRest fuel (jsonSkipWs rest) []
      else if hasPre "true".data (c :: rest) then some (.bool true, (c :: rest).drop 4)
      else if hasPre "false".data (c :: rest) then some (.bool false, (c :: rest).drop 5)
      else if hasPre "null".data (c :: rest) then some (.null, (c :: rest).drop 4)
      else (jsonIntRest? (c :: rest)).map (fun p => (.num p.1, p.2))

/-- Parse the members of a JSON object, `acc` holding the members already
seen. The input starts right after `{` (or after a comma), whitespace
skipped. -/
def jsonObjRest : Nat → Str → List (Str × Json) → Option (Json × Str)
  | 0, _, _ => none
  | fuel + 1, s, acc =>
    match s with
    | [] => none
    | c :: rest =>
      if c = rbrace && acc.isEmpty then some (.obj [], rest)
      else if c = '"' then
        match jsonStringRest (rest.length + 1) rest with
        | none => none
        | some (key, rest2) =>
          match jsonSkipWs rest2 with
          | ':' :: rest3 =>
            match jsonVal fuel rest3 with
            | none => none
            | some (v, rest4) =>
              let acc := dictInsertJ acc key v
              match jsonSkipWs rest4 with
              | ',' :: rest5 =>
                match jsonSkipWs rest5 with
                | '"' :: rest6 => jsonObjRest fuel ('"' :: rest6) acc
                | _ => none
              | d :: rest5 =>
                if d = rbrace then some (.obj acc, rest5) else none
              | [] => none
          | _ => none
      else none

/-- Parse the elements of a JSON array; the input starts right after `[`
(or after a comma), whitespace skipped. -/
def jsonArrRest : Nat → Str → List Json → Option (Json × Str)
  | 0, _, _ => none
  | fuel + 1, s, acc =>
    match s with
    | [] => none
    | c :: rest =>
      if c = ']' && acc.isEmpty then some (.arr [], rest)
      else
        match jsonVal fuel (c :: rest) with
        | none => none
        | some (v, rest2) =>
          let acc := acc ++ [v]
          match jsonSkipWs rest2 with
          | ',' :: rest3 => jsonArrRest fuel rest3 acc
          | d :: rest3 => if d = ']' then some (.arr acc, rest3) else none
          | [] => none

end

/-- `json.loads` on the model: parse one value and require only whitespace
after it. -/
def pyJsonLoads (s : Str) : Option Json :=
  match jsonVal (s.length + 1) s with
  | some (j, rest) => if jsonSkipWs rest = [] then some j else none
  | none => none

/-- Lowercase hexadecimal digit. -/
def hexDigit (n : Nat) : Char :=
  if n < 10 then digitChar n
  else if n = 10 then 'a' else if n = 11 then 'b' else if n = 12 then 'c'
  else if n = 13 then 'd' else if n = 14 then 'e' else 'f'

/-- Four-digit lowercase hexadecimal rendering (`'%04x'`). -/
def hex4 (n : Nat) : Str :=
  [hexDigit (n / 4096 % 16), hexDigit (n / 256 % 16), hexDigit (n / 16 % 16),
   hexDigit (n % 16)]

/-- The `\uXXXX` escape (with a surrogate pair above the BMP), as produced
by `json.dumps` with `ensure_ascii=True`. -/
def uEsc (c : Char) : Str :=
  if c.toNat < 0x10000 then '\\' :: 'u' :: hex4 c.toNat
  else
    let v := c.toNat - 0x10000
    ('\\' :: 'u' :: hex4 (0xD800 + v / 0x400)) ++ ('\\' :: 'u' :: hex4 (0xDC00 + v % 0x400))

/-- Escape one character of a JSON string, as `json.dumps` does with
`ensure_ascii=True`: short escapes for quote, backslash and common controls,
printable ASCII verbatim, everything else as `\uXXXX`. -/
def jsonEscChar (c : Char) : Str :=
  if c = '"' then ['\\', '"']
  else if c = '\\' then ['\\', '\\']
  else if c = '\n' then ['\\', 'n']
  else if c = '\r' then ['\\', 'r']
  else if c = '\t' then ['\\', 't']
  else if c.toNat = 8 then ['\\', 'b']
  else if c.toNat = 12 then ['\\', 'f']
  else if 0x20 ≤ c.toNat ∧ c.toNat ≤ 0x7e then [c]
  else uEsc c

/-- Serialize a JSON string literal. -/
def dumpJStr (s : Str) : Str := '"' :: s.flatMap jsonEscChar ++ ['"']

/-- Newline plus the indentation of nesting level `lvl` for
`json.dumps(..., indent=2)`. -/
def nlIndent (lvl : Nat) : Str := '\n' :: List.replicate (2 * lvl) ' '

mutual

/-- `json.dumps(j, indent=2)` at nesting level `lvl`. -/
def jsonDumps : Nat → Json → Str
  | _, .null => "null".data
  | _, .bool true => "true".data
  | _, .bool false => "false".data
  | _, .num n => intRepr n
  | _, .str s => dumpJStr s
  | _, .arr [] => "[]".data
  | lvl, .arr (x :: xs) =>
    '[' :: nlIndent (lvl + 1) ++ jsonDumps (lvl + 1) x ++ jsonDumpsArr (lvl + 1) xs
      ++ nlIndent lvl ++ "]".data
  | _, .obj [] => [lbrace, rbrace]
  | lvl, .obj (f :: fs) =>
    lbrace :: nlIndent (lvl + 1) ++ dumpJStr f.1 ++ ": ".data ++ jsonDumps (lvl + 1) f.2
      ++ jsonDumpsObj (lvl + 1) fs ++ nlIndent lvl ++ [rbrace]

/-- The remaining elements of an array, each preceded by `,` and a fresh
indented line. -/
def jsonDumpsArr : Nat → List Json → Str
  | _, [] => []
  | lvl, x :: xs => ',' :: nlIndent lvl ++ jsonDumps lvl x ++ jsonDumpsArr lvl xs

/-- The remaining members of an object. -/
def jsonDumpsObj : Nat → List (Str × Json) → Str
  | _, [] => []
  | lvl, f :: fs =>
    ',' :: nlIndent lvl ++ dumpJStr f.1 ++ ": ".data ++ jsonDumps lvl f.2
      ++ jsonDumpsObj lvl fs

end

/-!
## Curl generator (src/backend/app/services/curl_generator.py)
-/

/-- The sensitive-header substrings of `CurlGenerator.__init__`. -/
def sensitive_headers : List Str :=
  [ "cookie".data, "authorization".data, "x-api-key".data, "x-auth-token".data,
    "x-access-token".data, "bearer".data, "api-key".data ]

/-- `CurlGenerator._is_sensitive_header`: substring test on the lowercased
name. -/
def is_sensitive_header (name : Str) : Bool :=
  sensitive_headers.any (fun s => hasSub s (lowerStr name))

/-- `CurlGenerator._mask_sensitive_value`. -/
def mask_sensitive_value (v : Str) : Str :=
  if v.length ≤ 8 then "***MASKED***".data
  else v.take 4 ++ "...".data ++ v.drop (v.length - 4)

/-- `CurlGenerator._is_json_body`: syntactic brace/bracket check on the
stripped body. -/
def is_json_body (body : Str) : Bool :=
  if body = [] then false
  else
    let b := pyStrip body
    (hasPre [lbrace] b ∧ hasPre [rbrace] b.reverse)
      ∨ (hasPre "[".data b ∧ hasPre "]".data b.reverse)

/-- Escaping of double quotes in header values
(`clean_value.replace('"', '\\"')`). -/
def escDq (s : Str) : Str := replaceChar '"' ['\\', '"'] s

/-- Shell quote-splicing for single quotes inside a single-quoted literal
(`body.replace("'", "'\"'\"'")`). -/
def escSq (s : Str) : Str := replaceChar sqc [sqc, '"', sqc, '"', sqc] s

/-- One iteration of the header loop of `generate_curl`: strip name and
value, skip blank ones, mask sensitive values, escape quotes, format the
`-H` flag. -/
def headerToken (n v : Str) : Option Str :=
  let clean_name := pyStrip n
  let clean_value := pyStrip v
  if clean_name ≠ [] ∧ clean_value ≠ [] then
    let masked :=
      if is_sensitive_header clean_name then mask_sensitive_value clean_value
      else clean_value
    some ("-H \"".data ++ clean_name ++ ": ".data ++ escDq masked ++ ['"'])
  else none

/-- The `--data` flag of `generate_curl`: emitted only for a truthy body
with method POST/PUT/PATCH; pretty-printed via `json.loads`/`json.dumps`
when the syntactic JSON check passes and parsing succeeds, verbatim
otherwise; single quotes spliced. -/
def bodyToken (method body : Str) : List Str :=
  if body ≠ [] ∧ (method = "POST".data ∨ method = "PUT".data ∨ method = "PATCH".data)
  then
    let payload :=
      if is_json_body body then
        match pyJsonLoads body with
        | some j => jsonDumps 0 j
        | none => body
      else body
    ["--data ".data ++ sqc :: escSq payload ++ [sqc]]
  else []

/-- `CurlGenerator.generate_curl`, as the list of command parts the source
accumulates in `curl_parts` (program, optional `-X`, `-H` flags, optional
`--data`, single-quoted URL last); the missing-URL `CurlGenerationError` is
the error case. -/
def curlParts (r : Exchange) : Except Str (List Str) :=
  let parts := ["curl".data]
  let parts := parts ++ (if r.method ≠ "GET".data then ["-X ".data ++ r.method] else [])
  let parts := parts ++ r.headers.filterMap (fun p => headerToken p.1 p.2)
  let parts := parts ++ bodyToken r.method r.body
  if r.url = [] then
    .error "Could not generate curl command: Request URL is missing".data
  else .ok (parts ++ [sqc :: r.url ++ [sqc]])

/-- The final command string: the parts joined with a line continuation. -/
def generate_curl (r : Exchange) : Except Str Str :=
  (curlParts r).map (fun ps => sepJoin " \\\n  ".data ps)

/-!
## LLM service (src/backend/app/services/llm_service.py)
-/

/-- The header allow-list of `_compress_request_for_analysis`. -/
def important_header_keys : List Str :=
  [ "authorization".data, "content-type".data, "accept".data, "user-agent".data,
    "x-api-key".data, "x-auth-token".data, "cookie".data ]

/-- The compressed projection of an `Exchange` sent to the oracle. -/
structure Compressed where
  index : Nat
  method : Str
  url : Str
  headers : List (Str × Str)
  query_params : List (Str × Str)
  body : Str
  response_status : Int
  response_content_type : Str
  response_size : Int
  response_body_preview : Str
deriving DecidableEq, Repr

/-- `LLMService._compress_request_for_analysis`. -/
def compress_request_for_analysis (r : Exchange) (i : Nat) : Compressed :=
  let important_headers :=
    important_header_keys.filterMap
      (fun k => (dictGet? r.headers k).map (fun v => (k, v)))
  let body :=
    if r.body ≠ [] ∧ r.body.length > 500 then r.body.take 500 ++ "...".data
    else r.body
  let response_body :=
    if r.response_body ≠ [] ∧ r.response_body.length > 300 then
      r.response_body.take 300 ++ "...".data
    else r.response_body
  { index := i, method := r.method, url := r.url, headers := important_headers,
    query_params := r.query_params, body := body,
    response_status := r.response_status,
    response_content_type := r.response_content_type,
    response_size := r.response_size, response_body_preview := response_body }

/-- The compression comprehension of `find_best_request`:
`[compress(req, i) for i, req in enumerate(requests)]`. -/
def compressAll (reqs : List Exchange) : List Compressed :=
  reqs.enum.map (fun p => compress_request_for_analysis p.2 p.1)

/-- The JSON value `json.dumps` receives for one compressed candidate (the
dict literal returned by `_compress_request_for_analysis`, fields in
construction order). -/
def compressedToJson (c : Compressed) : Json :=
  .obj
    [ ("index".data, .num c.index),
      ("method".data, .str c.method),
      ("url".data, .str c.url),
      ("headers".data, .obj (c.headers.map (fun p => (p.1, .str p.2)))),
      ("query_params".data, .obj (c.query_params.map (fun p => (p.1, .str p.2)))),
      ("body".data, .str c.body),
      ("response_status".data, .num c.response_status),
      ("response_content_type".data, .str c.response_content_type),
      ("response_size".data, .num c.response_size),
      ("response_body_preview".data, .str c.response_body_preview) ]

/-- `LLMService._create_user_prompt`: the f-string template around
`json.dumps(requests, indent=2)`. -/
def create_user_prompt (cands : List Compressed) (description : Str) : Str :=
  let requests_json := jsonDumps 0 (.arr (cands.map compressedToJson))
  "User wants to find this API: \"".data ++ description
    ++ "\"\n\nHere are the HTTP requests from the HAR file to analyze:\n\n".data
    ++ requests_json
    ++ "\n\nPlease identify which request best matches the user's description and return your analysis as JSON.".data

/-- The oracle's reply at the boundary of `find_best_request`: either the
parsed structured answer (with the `.get` defaults already applied), or any
failure of the call/JSON parse, which the source turns into an
`LLMServiceError`. -/
inductive OracleAnswer where
  | parsed (selected_index : Int) (confidence : ℚ)
  | malformed (msg : Str)

/-- `LLMService.find_best_request`: accept the selection only when the index
is in range and the confidence is strictly above 0.3; `.ok none` is the
"no confident match" outcome; a malformed answer propagates as an error. -/
def find_best_request (requests : List Exchange) (ans : OracleAnswer) :
    Except Str (Option Exchange) :=
  match ans with
  | .malformed m => .error ("Failed to analyze requests: ".data ++ m)
  | .parsed idx conf =>
    if 0 ≤ idx ∧ idx < (requests.length : Int) ∧ (3 : ℚ) / 10 < conf then
      .ok requests[idx.toNat]?
    else .ok none

/-!
## Command runner (src/backend/main.py)
-/

/-- The status marker literal injected by `enhance_curl_command` and matched
by `parse_curl_response`. -/
def markerLit : Str := "---CURL_STATUS_CODE:".data

/-- Match the regex `---CURL_STATUS_CODE:(\d+)---` at the head of the
string; on success return the numeric status and the rest of the input
after the match. (For this pattern, greedy matching with backtracking
coincides with taking the maximal digit run.) -/
def matchMarker? (s : Str) : Option (Nat × Str) :=
  if hasPre markerLit s then
    let rest := s.drop markerLit.length
    let ds := rest.takeWhile isDigit
    if ds ≠ [] ∧ hasPre "---".data (rest.drop ds.length) then
      some (digitsToNat ds, (rest.drop ds.length).drop 3)
    else none
  else none

/-- A prefix is never longer than the string it starts. -/
theorem hasPre_length {p s : Str} (h : hasPre p s = true) : p.length ≤ s.length := by
  induction p generalizing s with
  | nil => simp
  | cons c cs ih =>
    cases s with
    | nil => simp [hasPre] at h
    | cons d ds =>
      simp only [hasPre, Bool.and_eq_true] at h
      simpa using ih h.2

/-- A successful marker match consumes at least one character. -/
theorem matchMarker?_length {s : Str} {p : Nat × Str}
    (h : matchMarker? s = some p) : p.2.length < s.length := by
  unfold matchMarker? at h
  split at h
  · next hpre =>
    have hlen : markerLit.length ≤ s.length := hasPre_length hpre
    have h20 : markerLit.length = 20 := by decide
    dsimp only at h
    split at h
    · next hds =>
      cases h
      have h2 : 0 < ((s.drop markerLit.length).takeWhile isDigit).length :=
        List.length_pos.mpr hds.1
      simp only [List.length_drop]
      omega
    · cases h
  · cases h

/-- `re.search` for the status marker: the status of the leftmost match,
when any. -/
def searchMarker? : Str → Option Nat
  | [] => none
  | c :: rest =>
    match matchMarker? (c :: rest) with
    | some p => some p.1
    | none => searchMarker? rest

/-- `re.sub(r'---CURL_STATUS_CODE:\d+---\s*', '', ...)`: remove every
(non-overlapping, leftmost-first) match together with the trailing
whitespace. -/
def removeMarkers (s : Str) : Str :=
  match s with
  | [] => []
  | c :: rest =>
    match h : matchMarker? (c :: rest) with
    | some p => removeMarkers (p.2.dropWhile isPyWs)
    | none => c :: removeMarkers rest
termination_by s.length
decreasing_by
  · have h1 := matchMarker?_length h
    have h2 : (p.2.dropWhile isPyWs).length ≤ p.2.length :=
      (List.dropWhile_sublist isPyWs).length_le
    simp at h1 ⊢
    omega
  · simp

/-- The structured response assembled by `parse_curl_response`. -/
structure CurlParsed where
  status_code : Nat
  headers : List (Str × Str)
  body : Str
deriving DecidableEq, Repr

/-- One header line of `parse_curl_response`: keep `key: value` lines with
the key stripped and lowercased and the value stripped; lines without a
colon are ignored. -/
def parseHeaderStep (acc : List (Str × Str)) (line : Str) : List (Str × Str) :=
  match splitOnceChar? ':' line with
  | some kv => dictInsert acc (lowerStr (pyStrip kv.1)) (pyStrip kv.2)
  | none => acc

/-- The header-block loop of `parse_curl_response`: split on newlines, skip
the status line, and fold the remaining lines. -/
def parseHeaderLines (headers_section : Str) : List (Str × Str) :=
  if headers_section = [] then []
  else ((splitOnChar '\n' headers_section).drop 1).foldl parseHeaderStep []

/-- `parse_curl_response`: extract the marker status (default 200), strip
the markers, split header block from body on the first CRLF-CRLF boundary
(falling back to LF-LF), and parse the header block. -/
def parse_curl_response (curl_output : Str) : CurlParsed :=
  let status_code := (searchMarker? curl_output).getD 200
  let clean_output := removeMarkers curl_output
  let parts? :=
    match splitOnceSub? "\r\n\r\n".data clean_output with
    | some p => some p
    | none => splitOnceSub? "\n\n".data clean_output
  match parts? with
  | some p =>
    { status_code := status_code, headers := parseHeaderLines p.1,
      body := pyStrip p.2 }
  | none =>
    { status_code := status_code, headers := [], body := pyStrip clean_output }

/-- The outcome of `subprocess.run` at the runner's boundary: normal
completion (return code, stdout, stderr, measured elapsed milliseconds),
the 30-second `TimeoutExpired`, or any other exception (with its text). -/
inductive ProcOutcome where
  | completed (returncode : Int) (stdoutText stderrText : Str) (elapsedMs : Nat)
  | timedOut
  | raised (msg : Str)

/-- The `ExecuteCurlResponse` model. -/
structure ExecResult where
  success : Bool
  status_code : Int
  headers : List (Str × Str)
  body : Str
  execution_time : Nat
  error : Option Str
deriving DecidableEq, Repr

/-- The message of the `HTTPException` raised by the command validation,
as caught and stringified by the generic handler of the endpoint. -/
def invalidCommandMsg : Str :=
  "Execution failed: 400: Invalid command: must be a curl command".data

/-- `execute_curl_command` (src/backend/main.py): the whole endpoint body.
The validation `HTTPException` is caught by the endpoint's own generic
`except Exception` clause, so every path produces an `ExecResult`. -/
def execute_curl_command (cmd : Str) (proc : ProcOutcome) : ExecResult :=
  if ¬ hasPre "curl".data (pyStrip cmd) then
    { success := false, status_code := 0, headers := [], body := [],
      execution_time := 0, error := some invalidCommandMsg }
  else
    match proc with
    | .completed rc stdoutText stderrText t =>
      if rc = 0 then
        let rd := parse_curl_response stdoutText
        { success := true, status_code := rd.status_code, headers := rd.headers,
          body := rd.body, execution_time := t, error := none }
      else
        { success := false, status_code := 0, headers := [], body := [],
          execution_time := t,
          error := some (if stderrText ≠ [] then pyStrip stderrText
            else "Unknown curl error".data) }
    | .timedOut =>
      { success := false, status_code := 0, headers := [], body := [],
        execution_time := 30000,
        error := some "Request timed out after 30 seconds".data }
    | .raised m =>
      { success := false, status_code := 0, headers := [], body := [],
        execution_time := 0, error := some ("Execution failed: ".data ++ m) }

/-!
## Theorems
-/

/-- C2: a sensitive header (lowercased name containing one of the sensitive
substrings) has its value masked before quote-escaping: stripped values of
length at most 8 become the fixed placeholder, longer values keep exactly
their first 4 and last 4 characters around the fixed separator, and
non-sensitive header values are emitted unmasked. -/
theorem C2_sensitive_header_masking :
    (∀ v : Str, v.length ≤ 8 → mask_sensitive_value v = "***MASKED***".data) ∧
    (∀ v : Str, 8 < v.length →
      mask_sensitive_value v = v.take 4 ++ "...".data ++ v.drop (v.length - 4)) ∧
    (∀ n v : Str, pyStrip n ≠ [] → pyStrip v ≠ [] →
      is_sensitive_header (pyStrip n) = true →
      headerToken n v =
        some ("-H \"".data ++ pyStrip n ++ ": ".data
          ++ escDq (mask_sensitive_value (pyStrip v)) ++ ['"'])) ∧
    (∀ n v : Str, pyStrip n ≠ [] → pyStrip v ≠ [] →
      is_sensitive_header (pyStrip n) = false →
      headerToken n v =
        some ("-H \"".data ++ pyStrip n ++ ": ".data ++ escDq (pyStrip v) ++ ['"'])) := by
  refine ⟨?_, ?_, ?_, ?_⟩
  · intro v h
    simp [mask_sensitive_value, h]
  · intro v h
    simp [mask_sensitive_value, Nat.not_le.mpr h]
  · intro n v hn hv hs
    simp [headerToken, hn, hv, hs]
  · intro n v hn hv hs
    simp [headerToken, hn, hv, hs]

theorem C2_sensitive_header_masking_witness :
    mask_sensitive_value "short".data = "***MASKED***".data ∧
    mask_sensitive_value "secrettoken1".data =
      ("secrettoken1".data.take 4 ++ "...".data
        ++ "secrettoken1".data.drop ("secrettoken1".data.length - 4)) ∧
    headerToken "Authorization".data " Bearer abcdefgh ".data =
      some ("-H \"".data ++ pyStrip "Authorization".data ++ ": ".data
        ++ escDq (mask_sensitive_value (pyStrip " Bearer abcdefgh ".data)) ++ ['"']) ∧
    headerToken "Accept".data "application/json".data =
      some ("-H \"".data ++ pyStrip "Accept".data ++ ": ".data
        ++ escDq (pyStrip "application/json".data) ++ ['"']) := by
  obtain ⟨h1, h2, h3, h4⟩ := C2_sensitive_header_masking
  exact ⟨h1 _ (by decide), h2 _ (by decide),
    h3 _ _ (by decide) (by decide) (by decide),
    h4 _ _ (by decide) (by decide) (by decide)⟩

/-- C3: the oracle's parsed answer selects an exchange exactly when the
index is within bounds and the confidence is strictly above 0.3; any other
parsed answer yields the no-match outcome, and a malformed answer fails
with an error instead of substituting a default. -/
theorem C3_oracle_answer_contract :
    (∀ (reqs : List Exchange) (i : Int) (c : ℚ),
      (∃ r, find_best_request reqs (.parsed i c) = .ok (some r)) ↔
        (0 ≤ i ∧ i < (reqs.length : Int) ∧ (3 : ℚ) / 10 < c)) ∧
    (∀ (reqs : List Exchange) (i : Int) (c : ℚ),
      ¬ (0 ≤ i ∧ i < (reqs.length : Int) ∧ (3 : ℚ) / 10 < c) →
      find_best_request reqs (.parsed i c) = .ok none) ∧
    (∀ (reqs : List Exchange) (m : Str),
      find_best_request reqs (.malformed m) =
        .error ("Failed to analyze requests: ".data ++ m)) := by
  refine ⟨?_, ?_, ?_⟩
  · intro reqs i c
    constructor
    · rintro ⟨r, hr⟩
      by_contra hcond
      simp [find_best_request, hcond] at hr
    · intro hcond
      have hlt : i.toNat < reqs.length := by omega
      refine ⟨reqs[i.toNat], ?_⟩
      simp [find_best_request, hcond, List.getElem?_eq_getElem hlt]
  · intro reqs i c hcond
    simp [find_best_request, hcond]
  · intro reqs m
    rfl

/-- A plain included exchange used as a concrete test vector. -/
def sampleExchange : Exchange where
  index := 0
  method := "GET".data
  url := "https://host.test/api/items".data
  headers := []
  query_params := []
  body := []
  body_size := 0
  response_status := 200
  response_content_type := "application/json".data
  response_size := 0
  response_body := []

theorem C3_oracle_answer_contract_witness :
    find_best_request (List.replicate 5 sampleExchange) (.parsed 2 (1 / 4)) = .ok none ∧
    find_best_request [] (.malformed "boom".data) =
      .error ("Failed to analyze requests: ".data ++ "boom".data) := by
  refine ⟨C3_oracle_answer_contract.2.1 _ 2 (1 / 4) (by norm_num),
    C3_oracle_answer_contract.2.2 [] ("boom".data)⟩

/-- C4 counterexample: on a non-zero exit with an empty error stream the
runner reports the fixed fallback message `Unknown curl error`, not the
trimmed error stream (which would be empty) as the claim states. -/
theorem C4_runner_counterexample :
    execute_curl_command ("curl https://example.com".data) (.completed 1 [] [] 7) =
      { success := false, status_code := 0, headers := [], body := [],
        execution_time := 7, error := some ("Unknown curl error".data) } ∧
    ("Unknown curl error".data : Str) ≠ pyStrip [] := by
  exact ⟨by decide, by decide⟩

/-- C4 (amended): the runner always produces an execution result: a command
whose trimmed text does not begin with `curl` yields the fixed validation
failure result without consulting the process outcome; a timeout yields
`success = false` with execution time exactly 30000 and the fixed timeout
message; a non-zero exit yields `success = false`, status 0 and the trimmed
error stream when it is non-empty (the fixed `Unknown curl error` message
when the stream is empty); any other exception yields `success = false`,
status 0, empty headers and body, execution time 0 and the exception text
prefixed by `Execution failed: `. -/
theorem C4_runner_normalization :
    (∀ (cmd : Str) (proc : ProcOutcome),
      hasPre "curl".data (pyStrip cmd) = false →
      execute_curl_command cmd proc =
        { success := false, status_code := 0, headers := [], body := [],
          execution_time := 0, error := some invalidCommandMsg }) ∧
    (∀ cmd : Str, hasPre "curl".data (pyStrip cmd) = true →
      execute_curl_command cmd .timedOut =
        { success := false, status_code := 0, headers := [], body := [],
          execution_time := 30000,
          error := some ("Request timed out after 30 seconds".data) }) ∧
    (∀ (cmd : Str) (rc : Int) (stdoutText stderrText : Str) (t : Nat),
      hasPre "curl".data (pyStrip cmd) = true → rc ≠ 0 →
      execute_curl_command cmd (.completed rc stdoutText stderrText t) =
        { success := false, status_code := 0, headers := [], body := [],
          execution_time := t,
          error := some (if stderrText ≠ [] then pyStrip stderrText
            else "Unknown curl error".data) }) ∧
    (∀ (cmd : Str) (m : Str),
      hasPre "curl".data (pyStrip cmd) = true →
      execute_curl_command cmd (.raised m) =
        { success := false, status_code := 0, headers := [], body := [],
          execution_time := 0,
          error := some ("Execution failed: ".data ++ m) }) := by
  refine ⟨?_, ?_, ?_, ?_⟩
  · intro cmd proc h
    simp [execute_curl_command, h]
  · intro cmd h
    simp [execute_curl_command, h]
  · intro cmd rc stdoutText stderrText t h hrc
    simp [execute_curl_command, h, hrc]
  · intro cmd m h
    simp [execute_curl_command, h]

theorem C4_runner_normalization_witness :
    execute_curl_command ("rm -rf /".data) (.completed 0 [] [] 3) =
      { success := false, status_code := 0, headers := [], body := [],
        execution_time := 0, error := some invalidCommandMsg } ∧
    execute_curl_command ("  curl https://a.test".data) .timedOut =
      { success := false, status_code := 0, headers := [], body := [],
        execution_time := 30000,
        error := some ("Request timed out after 30 seconds".data) } ∧
    execute_curl_command ("curl https://a.test".data)
        (.completed 6 [] (" could not resolve host\n".data) 12) =
      { success := false, status_code := 0, headers := [], body := [],
        execution_time := 12,
        error := some (if (" could not resolve host\n".data : Str) ≠ [] then
          pyStrip (" could not resolve host\n".data)
          else "Unknown curl error".data) } ∧
    execute_curl_command ("curl https://a.test".data) (.raised ("boom".data)) =
      { success := false, status_code := 0, headers := [], body := [],
        execution_time := 0,
        error := some ("Execution failed: ".data ++ "boom".data) } := by
  obtain ⟨h1, h2, h3, h4⟩ := C4_runner_normalization
  exact ⟨h1 _ _ (by decide), h2 _ (by decide), h3 _ 6 _ _ 12 (by decide) (by decide),
    h4 _ _ (by decide)⟩

/-- The inclusion predicate exactly as the specification words it: the
numbered short-circuit rules 1-7. -/
def shouldIncludeSpec (st : Settings) (r : Exchange) : Bool :=
  if r.response_status ∈ st.INCLUDE_STATUS_CODES then
    if st.EXCLUDE_MIME_TYPES.any
        (fun d => hasPre (lowerStr d) (lowerStr r.response_content_type)) then false
    else if api_content_types.any
        (fun a => hasPre a (lowerStr r.response_content_type)) then true
    else if lowerStr r.response_content_type = []
        ∧ 200 ≤ r.response_status ∧ r.response_status < 300 then true
    else if r.query_params ≠ [] then true
    else if (r.method = "POST".data ∨ r.method = "PUT".data ∨ r.method = "PATCH".data)
        ∧ r.body ≠ [] then true
    else false
  else false

/-- C1: the implemented inclusion predicate evaluates its rules in exactly
the specified short-circuit order; in particular a 404 response is excluded
under the default allow-set regardless of anything else, and a deny-listed
content type excludes the exchange no matter which later rule would have
included it. -/
theorem C1_inclusion_rule_order :
    (∀ (st : Settings) (r : Exchange),
      should_include_request st r = shouldIncludeSpec st r) ∧
    (∀ r : Exchange, r.response_status = 404 →
      should_include_request defaultSettings r = false) ∧
    (∀ (st : Settings) (r : Exchange),
      st.EXCLUDE_MIME_TYPES.any
        (fun d => hasPre (lowerStr d) (lowerStr r.response_content_type)) = true →
      should_include_request st r = false) := by
  refine ⟨?_, ?_, ?_⟩
  · intro st r
    by_cases hmem : r.response_status ∈ st.INCLUDE_STATUS_CODES
    · simp [should_include_request, shouldIncludeSpec, hmem]
    · simp [should_include_request, shouldIncludeSpec, hmem]
  · intro r h
    have hmem : r.response_status ∉ defaultSettings.INCLUDE_STATUS_CODES := by
      rw [h]; decide
    simp [should_include_request, hmem]
  · intro st r h
    by_cases hmem : r.response_status ∈ st.INCLUDE_STATUS_CODES
    · simp [should_include_request, hmem, h]
    · simp [should_include_request, hmem]

/-- An exchange with a denied content type and every later inclusion signal
(query parameters and a POST body), used as the C1 test vector. -/
def deniedExchange : Exchange where
  index := 1
  method := "POST".data
  url := "https://host.test/page?q=1".data
  headers := []
  query_params := [("q".data, "1".data)]
  body := "a=1".data
  body_size := 3
  response_status := 200
  response_content_type := "text/html; charset=utf-8".data
  response_size := 500
  response_body := []

theorem C1_inclusion_rule_order_witness :
    should_include_request defaultSettings sampleExchange =
      shouldIncludeSpec defaultSettings sampleExchange ∧
    should_include_request defaultSettings
      { sampleExchange with response_status := 404 } = false ∧
    should_include_request defaultSettings deniedExchange = false := by
  refine ⟨C1_inclusion_rule_order.1 _ _, C1_inclusion_rule_order.2.1 _ rfl,
    C1_inclusion_rule_order.2.2 _ _ (by decide)⟩

/-- A minimal valid HAR entry whose response is JSON (so it survives the
filter), used to build concrete archives. -/
def goodEntry : Json :=
  .obj
    [ ("request".data,
        .obj [ ("method".data, .str ("GET".data)),
               ("url".data, .str ("https://host.test/api/items".data)) ]),
      ("response".data,
        .obj [ ("status".data, .num 200),
               ("content".data,
                 .obj [ ("mimeType".data, .str ("application/json".data)) ]) ]) ]

/-- An archive with five malformed entries followed by one good entry: the
single surviving exchange carries parse-time ordinal 5. -/
def har9 : Json :=
  .obj [ ("log".data,
    .obj [ ("entries".data,
      .arr [.null, .null, .null, .null, .null, goodEntry]) ]) ]

/-- The exchange parsed from entry number 5 of `har9`. -/
def exchange5 : Exchange where
  index := 5
  method := "GET".data
  url := "https://host.test/api/items".data
  headers := []
  query_params := []
  body := []
  body_size := 0
  response_status := 200
  response_content_type := "application/json".data
  response_size := 0
  response_body := []

instance {e a : Type} [DecidableEq e] [DecidableEq a] :
    DecidableEq (Except e a) := fun x y =>
  match x, y with
  | .ok u, .ok v =>
    match decEq u v with
    | isTrue h => isTrue (by rw [h])
    | isFalse h => isFalse (by intro hh; cases hh; exact h rfl)
  | .error u, .error v =>
    match decEq u v with
    | isTrue h => isTrue (by rw [h])
    | isFalse h => isFalse (by intro hh; cases hh; exact h rfl)
  | .ok _, .error _ => isFalse (by intro hh; cases hh)
  | .error _, .ok _ => isFalse (by intro hh; cases hh)

/-- C9 counterexample: the compressed candidate is tagged with its position
in the candidate list (`enumerate`), not with the parse-time ordinal of its
source exchange: the only survivor of `har9` has parse-time index 5 but is
compressed with tag 0. -/
theorem C9_compression_counterexample :
    parse_har_file defaultSettings (some har9) = .ok [exchange5] ∧
    exchange5.index = 5 ∧
    (compressAll [exchange5]).map (fun c => c.index) = [0] ∧
    (compress_request_for_analysis exchange5 0).index ≠ exchange5.index := by
  exact ⟨by decide, by decide, by decide, by decide⟩

/-- C9 (amended): compression retains exactly the allow-listed headers
present on the exchange (keys are stored lowercased by the parser),
truncates the request body at 500 characters and the response preview at
300 with the ellipsis marker appended exactly when cut, and tags each
candidate with its position in the candidate list handed to the oracle
stage — the same position the oracle's answer indexes, so the mapping back
is unambiguous (but it is not the parse-time ordinal of the exchange). -/
theorem C9_compression_contract :
    (∀ (r : Exchange) (i : Nat),
      (compress_request_for_analysis r i).index = i ∧
      (compress_request_for_analysis r i).headers =
        important_header_keys.filterMap
          (fun k => (dictGet? r.headers k).map (fun v => (k, v))) ∧
      (∀ (k v : Str), (k, v) ∈ (compress_request_for_analysis r i).headers ↔
        k ∈ important_header_keys ∧ dictGet? r.headers k = some v) ∧
      (compress_request_for_analysis r i).body =
        (if 500 < r.body.length then r.body.take 500 ++ "...".data else r.body) ∧
      (compress_request_for_analysis r i).response_body_preview =
        (if 300 < r.response_body.length then
          r.response_body.take 300 ++ "...".data
          else r.response_body)) ∧
    (∀ reqs : List Exchange,
      (compressAll reqs).map (fun c => c.index) = List.range reqs.length) := by
  constructor
  · intro r i
    refine ⟨rfl, rfl, ?_, ?_, ?_⟩
    · intro k v
      constructor
      · intro hmem
        simp only [compress_request_for_analysis, List.mem_filterMap,
          Option.map_eq_some'] at hmem
        obtain ⟨k', hk', v', hv', heq⟩ := hmem
        cases heq
        exact ⟨hk', hv'⟩
      · rintro ⟨hk, hv⟩
        simp only [compress_request_for_analysis, List.mem_filterMap]
        exact ⟨k, hk, by simp [hv]⟩
    · by_cases h : 500 < r.body.length
      · have hne : r.body ≠ [] := by
          intro hb
          rw [hb] at h
          simp at h
        simp [compress_request_for_analysis, h, hne]
      · simp [compress_request_for_analysis, h]
    · by_cases h : 300 < r.response_body.length
      · have hne : r.response_body ≠ [] := by
          intro hb
          rw [hb] at h
          simp at h
        simp [compress_request_for_analysis, h, hne]
      · simp [compress_request_for_analysis, h]
  · intro reqs
    simp [compressAll, List.map_map]
    have : (fun c => Compressed.index c) ∘
        (fun p : Nat × Exchange => compress_request_for_analysis p.2 p.1) =
        Prod.fst := by
      funext p
      rfl
    rw [this, List.enum_map_fst]

/-- The priority score as the specification words it: a sum of five
independent bonuses. -/
def priorityScoreSpec (r : Exchange) : Nat :=
  (if hasSub "json".data (lowerStr r.response_content_type) then 10 else 0) +
  (if 200 ≤ r.response_status ∧ r.response_status < 300 then 5 else 0) +
  (if 100 < r.response_size ∧ r.response_size < 10000 then 3 else 0) +
  (if ["api".data, "v1".data, "v2".data, "rest".data, "graphql".data].any
      (fun k => hasSub k (lowerStr r.url)) then 8 else 0) +
  (if r.method ≠ "GET".data then 2 else 0)

/-- The descending comparison is transitive. -/
theorem priorityGe_trans : ∀ a b c : Exchange,
    priorityGe a b → priorityGe b c → priorityGe a c := by
  intro a b c hab hbc
  simp only [priorityGe, decide_eq_true_eq] at *
  omega

/-- The descending comparison is total. -/
theorem priorityGe_total : ∀ a b : Exchange, priorityGe a b || priorityGe b a := by
  intro a b
  simp only [priorityGe, Bool.or_eq_true, decide_eq_true_eq]
  omega

/-- Merge sort by `priorityGe` keeps the subsequence of any fixed score
untouched (stability at equal keys). -/
theorem filter_mergeSort_score (l : List Exchange) (n : Nat) :
    (l.mergeSort priorityGe).filter (fun r => decide (priority_score r = n)) =
      l.filter (fun r => decide (priority_score r = n)) := by
  set p : Exchange → Bool := fun r => decide (priority_score r = n) with hp
  have hpair : (l.filter p).Pairwise (fun a b => priorityGe a b = true) := by
    apply List.pairwise_of_forall_mem_list
    intro a ha b hb
    have ha' := (List.mem_filter.mp ha).2
    have hb' := (List.mem_filter.mp hb).2
    simp only [hp, decide_eq_true_eq] at ha' hb'
    simp [priorityGe, ha', hb']
  have hsub : List.Sublist (l.filter p) (l.mergeSort priorityGe) :=
    List.sublist_mergeSort priorityGe_trans priorityGe_total hpair
      (List.filter_sublist l)
  have hsub2 : List.Sublist (l.filter p) ((l.mergeSort priorityGe).filter p) := by
    have h1 := hsub.filter p
    simpa using h1
  have hlen : ((l.mergeSort priorityGe).filter p).length = (l.filter p).length :=
    ((List.mergeSort_perm l priorityGe).filter p).length_eq
  exact (hsub2.eq_of_length hlen.symm).symm

/-- C5: the score is the specified sum of independent bonuses; the
prioritization step runs only past the cap (below it the filtered list is
returned untouched); above the cap the output has exactly `cap` elements,
is sorted by non-increasing score, and preserves the original relative
order of any fixed score. -/
theorem C5_scoring_and_prioritization :
    (∀ r : Exchange, priority_score r = priorityScoreSpec r) ∧
    (∀ (st : Settings) (reqs : List Exchange),
      reqs.length ≤ st.MAX_REQUESTS_TO_ANALYZE → applyLimit st reqs = reqs) ∧
    (∀ (st : Settings) (reqs : List Exchange),
      st.MAX_REQUESTS_TO_ANALYZE < reqs.length →
      (prioritize_requests st reqs).length = st.MAX_REQUESTS_TO_ANALYZE) ∧
    (∀ (st : Settings) (reqs : List Exchange),
      (prioritize_requests st reqs).Pairwise
        (fun a b => priority_score b ≤ priority_score a)) ∧
    (∀ (st : Settings) (reqs : List Exchange) (n : Nat),
      List.Sublist
        ((prioritize_requests st reqs).filter (fun r => decide (priority_score r = n)))
        (reqs.filter (fun r => decide (priority_score r = n)))) := by
  refine ⟨?_, ?_, ?_, ?_, ?_⟩
  · intro r
    dsimp only [priority_score, priorityScoreSpec]
    split_ifs <;> omega
  · intro st reqs h
    simp [applyLimit, Nat.not_lt.mpr h]
  · intro st reqs h
    simp only [prioritize_requests, List.length_take, List.length_mergeSort]
    omega
  · intro st reqs
    have hsorted := List.sorted_mergeSort priorityGe_trans priorityGe_total reqs
    have htake : List.Sublist (prioritize_requests st reqs) (reqs.mergeSort priorityGe) :=
      List.take_sublist _ _
    exact (List.Pairwise.sublist htake hsorted).imp
      (by
        intro a b h
        simpa [priorityGe] using h)
  · intro st reqs n
    have h1 := (List.take_sublist st.MAX_REQUESTS_TO_ANALYZE
      (reqs.mergeSort priorityGe)).filter (fun r => decide (priority_score r = n))
    rw [filter_mergeSort_score] at h1
    exact h1

/-- Three exchanges with distinct and equal scores, driving the concrete
C5 check: scores are 15, 0 and 15. -/
def scoringExchanges : List Exchange :=
  [ { sampleExchange with
        index := 0,
        url := "https://host.test/a".data,
        response_content_type := "application/json".data },
    { sampleExchange with
        index := 1,
        url := "https://host.test/a".data,
        response_content_type := "text/csv".data,
        response_status := 404 },
    { sampleExchange with
        index := 2,
        url := "https://host.test/b".data,
        response_content_type := "application/json".data } ]

/-- Settings with a cap of 2, so that three candidates exceed the cap. -/
def smallCapSettings : Settings :=
  { defaultSettings with MAX_REQUESTS_TO_ANALYZE := 2 }

theorem C5_scoring_and_prioritization_witness :
    priority_score sampleExchange = priorityScoreSpec sampleExchange ∧
    applyLimit defaultSettings scoringExchanges = scoringExchanges ∧
    (prioritize_requests smallCapSettings scoringExchanges).length = 2 ∧
    (prioritize_requests smallCapSettings scoringExchanges).Pairwise
      (fun a b => priority_score b ≤ priority_score a) ∧
    List.Sublist
      ((prioritize_requests smallCapSettings scoringExchanges).filter
        (fun r => decide (priority_score r = 15)))
      (scoringExchanges.filter (fun r => decide (priority_score r = 15))) := by
  obtain ⟨h1, h2, h3, h4, h5⟩ := C5_scoring_and_prioritization
  exact ⟨h1 _, h2 _ _ (by decide), h3 _ _ (by decide), h4 _ _, h5 _ _ 15⟩

/-- A HAR document with the required `log.entries` shape around the given
entries. -/
def mkHar (entries : List Json) : Json :=
  .obj [("log".data, .obj [("entries".data, .arr entries)])]

/-- The per-entry parses that succeed, in order, with their parse-time
ordinals. -/
def parsedEntries (entries : List Json) : List Exchange :=
  entries.enum.filterMap (fun p => parse_entry p.2 p.1)

/-- The URL a HAR entry would provide to `_parse_entry`. -/
def entryUrl? (entryF : List (Str × Json)) : Option Str :=
  (jObjField? entryF "request".data).bind (fun reqF => jStrField? reqF "url".data [])

/-- Skipping entries never shortens more than the list: the survivors of a
`filterMap` are the total minus the failures. -/
theorem length_filterMap_sub {α β : Type} (f : α → Option β) (l : List α) :
    (l.filterMap f).length = l.length - (l.filter (fun a => (f a).isNone)).length := by
  induction l with
  | nil => rfl
  | cons a l ih =>
    have hle : (l.filter (fun a => (f a).isNone)).length ≤ l.length :=
      List.length_filter_le _ _
    cases hf : f a with
    | none => simp [List.filterMap_cons, List.filter_cons, hf, ih]
    | some b =>
      simp only [List.filterMap_cons, hf, List.filter_cons, Option.isNone_some,
        Bool.false_eq_true, if_false, List.length_cons, ih]
      omega

/-- When every surviving entry passes the inclusion filter, the guarded
loop keeps exactly the survivors. -/
theorem filterMap_guardInclude (st : Settings) (l : List (Nat × Json))
    (h : ∀ r ∈ l.filterMap (fun p => parse_entry p.2 p.1),
      should_include_request st r = true) :
    l.filterMap (guardInclude st) = l.filterMap (fun p => parse_entry p.2 p.1) := by
  induction l with
  | nil => rfl
  | cons a l ih =>
    have htail : ∀ r ∈ l.filterMap (fun p => parse_entry p.2 p.1),
        should_include_request st r = true := by
      intro b hb
      apply h
      rw [List.filterMap_cons]
      cases hf : parse_entry a.2 a.1 <;> simp [hf, hb]
    cases hf : parse_entry a.2 a.1 with
    | none => simp [List.filterMap_cons, guardInclude, hf, ih htail]
    | some r =>
      have hq := h r (by simp [List.filterMap_cons, hf])
      simp [List.filterMap_cons, guardInclude, hf, hq, ih htail]

/-- `parse_har_file` on a well-shaped archive reduces to the guarded
per-entry pipeline. -/
theorem parse_har_file_mkHar (st : Settings) (entries : List Json) :
    parse_har_file st (some (mkHar entries)) =
      .ok (applyLimit st (entries.enum.filterMap (guardInclude st))) := rfl

set_option maxHeartbeats 2000000 in
/-- C6: undecodable input and a malformed top-level shape fail with a parse
error and yield no exchanges; a malformed entry among valid ones is skipped
non-fatally, so the output is exactly the surviving entries and its count is
the total minus the malformed count; an entry lacking a request URL is
dropped silently. -/
theorem C6_parse_error_handling :
    (∀ st : Settings, parse_har_file st none = .error .invalidJson) ∧
    (∀ (st : Settings) (j : Json), validate_har_structure j = false →
      parse_har_file st (some j) = .error .invalidStructure) ∧
    (∀ (st : Settings) (entries : List Json),
      (∀ r ∈ parsedEntries entries, should_include_request st r = true) →
      (parsedEntries entries).length ≤ st.MAX_REQUESTS_TO_ANALYZE →
      parse_har_file st (some (mkHar entries)) = .ok (parsedEntries entries) ∧
      (parsedEntries entries).length =
        entries.length -
          (entries.enum.filter (fun p => (parse_entry p.2 p.1).isNone)).length) ∧
    (∀ (entryF : List (Str × Json)) (i : Nat),
      entryUrl? entryF = some [] → parse_entry (.obj entryF) i = none) := by
  refine ⟨?_, ?_, ?_, ?_⟩
  · intro st
    rfl
  · intro st j h
    simp [parse_har_file, h]
  · intro st entries hall hlen
    constructor
    · rw [parse_har_file_mkHar, filterMap_guardInclude st entries.enum hall]
      have happ : applyLimit st (parsedEntries entries) = parsedEntries entries := by
        simp [applyLimit, Nat.not_lt.mpr hlen]
      rw [show entries.enum.filterMap (fun p => parse_entry p.2 p.1) =
        parsedEntries entries from rfl, happ]
    · have := length_filterMap_sub (fun p : Nat × Json => parse_entry p.2 p.1)
        entries.enum
      simpa [parsedEntries] using this
  · intro entryF i h
    unfold entryUrl? at h
    cases hreq : jObjField? entryF "request".data with
    | none =>
      rw [hreq] at h
      exact Option.noConfusion h
    | some reqF =>
      rw [hreq, Option.some_bind] at h
      cases hresp : jObjField? entryF "response".data with
      | none =>
        simp only [parse_entry, hreq, hresp, Option.bind_eq_bind,
          Option.some_bind, Option.none_bind]
      | some respF =>
        cases hm : jStrField? reqF "method".data ("GET".data) with
        | none =>
          simp only [parse_entry, hreq, hresp, hm, Option.bind_eq_bind,
            Option.some_bind, Option.none_bind]
        | some m =>
          simp only [parse_entry, hreq, hresp, hm, h, Option.bind_eq_bind,
            Option.some_bind, Option.none_bind, reduceIte]

/-- The exchange parsed from `goodEntry` when it sits at ordinal 1. -/
def exchange6 : Exchange := { exchange5 with index := 1 }

/-- An entry whose request lacks a URL, silently dropped by the parser. -/
def noUrlEntryFields : List (Str × Json) :=
  [ ("request".data, .obj [("method".data, .str ("GET".data))]),
    ("response".data, .obj [("status".data, .num 200)]) ]

theorem C6_parse_error_handling_witness :
    parse_har_file defaultSettings none = .error .invalidJson ∧
    parse_har_file defaultSettings (some (.arr [])) = .error .invalidStructure ∧
    parse_har_file defaultSettings (some (mkHar [.num 7, goodEntry])) =
      .ok (parsedEntries [.num 7, goodEntry]) ∧
    (parsedEntries [.num 7, goodEntry]).length =
      ([Json.num 7, goodEntry].length -
        (([Json.num 7, goodEntry]).enum.filter
          (fun p => (parse_entry p.2 p.1).isNone)).length) ∧
    parse_entry (.obj noUrlEntryFields) 0 = none := by
  obtain ⟨h1, h2, h3, h4⟩ := C6_parse_error_handling
  have hpe : parsedEntries [.num 7, goodEntry] = [exchange6] := by decide
  obtain ⟨h31, h32⟩ := h3 defaultSettings [.num 7, goodEntry]
    (by
      rw [hpe]
      decide)
    (by
      rw [hpe]
      decide)
  exact ⟨h1 _, h2 _ _ (by decide), h31, h32, h4 noUrlEntryFields 0 (by decide)⟩

/-- A brace-delimited body that is not valid JSON. -/
def bodyOops : Str := lbrace :: "oops".data ++ [rbrace]

/-- A POST exchange with a header whose value is blank after stripping and
a brace-delimited but unparsable body. -/
def ex8 : Exchange where
  index := 0
  method := "POST".data
  url := "https://api.example.com/items".data
  headers := [("x-note".data, "   ".data)]
  query_params := []
  body := bodyOops
  body_size := 6
  response_status := 200
  response_content_type := "application/json".data
  response_size := 0
  response_body := []

/-- C8 counterexample: a body whose trimmed text starts and ends with
matching braces but does not parse as JSON is emitted verbatim (not
JSON-pretty-printed), and a header whose stripped value is blank emits no
header flag at all, contrary to the claim's "one header flag per header"
and "pretty-printed when the trimmed text starts and ends with matching
braces". -/
theorem C8_build_counterexample :
    is_json_body bodyOops = true ∧
    (pyJsonLoads bodyOops).isNone = true ∧
    ex8.headers.length = 1 ∧
    curlParts ex8 = .ok
      [ "curl".data,
        "-X ".data ++ "POST".data,
        "--data ".data ++ sqc :: escSq bodyOops ++ [sqc],
        sqc :: ex8.url ++ [sqc] ] ∧
    escSq bodyOops = bodyOops := by
  exact ⟨by decide, by decide, by decide, by decide, by decide⟩

/-- A header flag never looks like a method flag. -/
theorem hasPre_X_header (rest : Str) :
    hasPre "-X ".data ("-H \"".data ++ rest) = false := rfl

/-- A body flag never looks like a method flag. -/
theorem hasPre_X_data (rest : Str) :
    hasPre "-X ".data ("--data ".data ++ rest) = false := rfl

/-- The single-quoted URL token never looks like a method flag. -/
theorem hasPre_X_url (rest : Str) : hasPre "-X ".data (sqc :: rest) = false := rfl

/-- Every emitted header flag starts with the `-H "` prefix. -/
theorem headerToken_shape (n v t : Str) (h : headerToken n v = some t) :
    ∃ rest, t = "-H \"".data ++ rest := by
  unfold headerToken at h
  dsimp only at h
  split at h
  · exact ⟨_, (Option.some_inj.mp h).symm⟩
  · exact Option.noConfusion h

/-- Every emitted body flag starts with the `--data ` prefix. -/
theorem bodyToken_shape (m b t : Str) (h : t ∈ bodyToken m b) :
    ∃ rest, t = "--data ".data ++ rest := by
  unfold bodyToken at h
  split at h
  · simp only [List.mem_singleton] at h
    exact ⟨_, h⟩
  · simp at h

/-- C8 (amended): build fails on an empty URL; otherwise the tokens come in
the strict order program, optional method flag (only when the method is not
GET), one header flag per header whose stripped name and value are both
non-blank (in encounter order), an optional body flag (only for a non-empty
body with method POST/PUT/PATCH; JSON-pretty-printed only when the
syntactic brace check passes AND the body parses as JSON, verbatim
otherwise, single quotes spliced), and the single-quoted URL last. -/
theorem C8_token_order :
    (∀ r : Exchange, r.url = [] →
      curlParts r =
        .error "Could not generate curl command: Request URL is missing".data) ∧
    (∀ r : Exchange, r.url ≠ [] →
      curlParts r = .ok
        (["curl".data]
          ++ (if r.method ≠ "GET".data then ["-X ".data ++ r.method] else [])
          ++ r.headers.filterMap (fun p => headerToken p.1 p.2)
          ++ bodyToken r.method r.body
          ++ [sqc :: r.url ++ [sqc]])) ∧
    (∀ n v : Str, pyStrip n = [] ∨ pyStrip v = [] → headerToken n v = none) ∧
    (∀ (m b : Str) (j : Json), b ≠ [] →
      (m = "POST".data ∨ m = "PUT".data ∨ m = "PATCH".data) →
      is_json_body b = true → pyJsonLoads b = some j →
      bodyToken m b = ["--data ".data ++ sqc :: escSq (jsonDumps 0 j) ++ [sqc]]) ∧
    (∀ m b : Str, b ≠ [] →
      (m = "POST".data ∨ m = "PUT".data ∨ m = "PATCH".data) →
      (is_json_body b = false ∨ pyJsonLoads b = none) →
      bodyToken m b = ["--data ".data ++ sqc :: escSq b ++ [sqc]]) ∧
    (∀ m b : Str,
      b = [] ∨ ¬ (m = "POST".data ∨ m = "PUT".data ∨ m = "PATCH".data) →
      bodyToken m b = []) ∧
    (∀ (r : Exchange) (ts : List Str), r.method = "GET".data →
      curlParts r = .ok ts → ∀ t ∈ ts, hasPre "-X ".data t = false) ∧
    (∀ (r : Exchange) (ts : List Str), curlParts r = .ok ts →
      ts.getLast? = some (sqc :: r.url ++ [sqc])) := by
  have hok : ∀ r : Exchange, r.url ≠ [] →
      curlParts r = .ok
        (["curl".data]
          ++ (if r.method ≠ "GET".data then ["-X ".data ++ r.method] else [])
          ++ r.headers.filterMap (fun p => headerToken p.1 p.2)
          ++ bodyToken r.method r.body
          ++ [sqc :: r.url ++ [sqc]]) := by
    intro r h
    simp [curlParts, h]
  have hurl : ∀ (r : Exchange) (ts : List Str), curlParts r = .ok ts → r.url ≠ [] := by
    intro r ts hok' hempty
    rw [show curlParts r =
      .error "Could not generate curl command: Request URL is missing".data
      from by simp [curlParts, hempty]] at hok'
    exact Except.noConfusion hok'
  refine ⟨?_, hok, ?_, ?_, ?_, ?_, ?_, ?_⟩
  · intro r h
    simp [curlParts, h]
  · intro n v h
    rcases h with h | h <;> simp [headerToken, h]
  · intro m b j hb hm hjson hparse
    simp [bodyToken, hb, hm, hjson, hparse]
  · intro m b hb hm hor
    rcases hor with h | h
    · simp [bodyToken, hb, hm, h]
    · by_cases hjson : is_json_body b = true
      · simp [bodyToken, hb, hm, hjson, h]
      · have hj : is_json_body b = false := by
          cases hcase : is_json_body b
          · rfl
          · exact absurd hcase hjson
        simp [bodyToken, hb, hm, hj]
  · intro m b h
    rcases h with h | h <;> simp [bodyToken, h]
  · intro r ts hmethod hok' t ht
    have hne := hurl r ts hok'
    rw [hok r hne] at hok'
    have hts := Except.ok.inj hok'
    subst hts
    simp only [hmethod, ne_eq, not_true_eq_false, if_neg, List.append_assoc,
      List.mem_append, List.nil_append, not_false_eq_true] at ht
    rcases ht with ht | ht | ht | ht
    · rcases List.mem_singleton.mp (by simpa using ht) with rfl
      rfl
    · obtain ⟨p, hp, hsome⟩ := List.mem_filterMap.mp ht
      obtain ⟨rest, hrest⟩ := headerToken_shape p.1 p.2 t hsome
      rw [hrest]
      exact hasPre_X_header rest
    · obtain ⟨rest, hrest⟩ := bodyToken_shape _ r.body t ht
      rw [hrest]
      exact hasPre_X_data rest
    · rcases List.mem_singleton.mp ht with rfl
      exact hasPre_X_url _
  · intro r ts hok'
    have hne := hurl r ts hok'
    rw [hok r hne] at hok'
    have hts := Except.ok.inj hok'
    subst hts
    exact List.getLast?_concat _

/-- A small valid JSON object body. -/
def jsonBodyW : Str := lbrace :: "\"a\": 1".data ++ [rbrace]

theorem C8_token_order_witness :
    curlParts { ex8 with url := [] } =
      .error "Could not generate curl command: Request URL is missing".data ∧
    curlParts ex8 = .ok
      (["curl".data]
        ++ (if ex8.method ≠ "GET".data then ["-X ".data ++ ex8.method] else [])
        ++ ex8.headers.filterMap (fun p => headerToken p.1 p.2)
        ++ bodyToken ex8.method ex8.body
        ++ [sqc :: ex8.url ++ [sqc]]) ∧
    headerToken ("x-note".data) ("   ".data) = none ∧
    bodyToken ("POST".data) jsonBodyW =
      ["--data ".data ++ sqc ::
        escSq (jsonDumps 0 (.obj [("a".data, .num 1)])) ++ [sqc]] ∧
    bodyToken ("PUT".data) bodyOops =
      ["--data ".data ++ sqc :: escSq bodyOops ++ [sqc]] ∧
    bodyToken ("GET".data) bodyOops = [] ∧
    hasPre "-X ".data ("curl".data) = false ∧
    (["curl".data, "-X ".data ++ "POST".data,
      "--data ".data ++ sqc :: escSq bodyOops ++ [sqc],
      sqc :: ex8.url ++ [sqc]] : List Str).getLast? =
        some (sqc :: ex8.url ++ [sqc]) := by
  obtain ⟨h1, h2, h3, h4, h5, h6, h7, h8⟩ := C8_token_order
  refine ⟨h1 _ rfl, h2 ex8 (by decide), h3 _ _ (Or.inr (by decide)), ?_, ?_, ?_, ?_, ?_⟩
  · exact h4 ("POST".data) jsonBodyW (.obj [("a".data, .num 1)]) (by decide)
      (Or.inl rfl) (by decide) (by rfl)
  · exact h5 ("PUT".data) bodyOops (by decide) (Or.inr (Or.inl rfl))
      (Or.inr (by rfl))
  · exact h6 ("GET".data) bodyOops (Or.inr (by decide))
  · exact h7 { ex8 with method := "GET".data, body := [] }
      (["curl".data]
        ++ (if ("GET".data : Str) ≠ "GET".data then ["-X ".data ++ "GET".data] else [])
        ++ ex8.headers.filterMap (fun p => headerToken p.1 p.2)
        ++ bodyToken ("GET".data) []
        ++ [sqc :: ex8.url ++ [sqc]]) rfl (by decide) ("curl".data) (by decide)
  · exact h8 ex8
      ["curl".data, "-X ".data ++ "POST".data,
        "--data ".data ++ sqc :: escSq bodyOops ++ [sqc],
        sqc :: ex8.url ++ [sqc]] (by decide)

/-- A string is a prefix of itself followed by anything. -/
theorem hasPre_append_self (p t : Str) : hasPre p (p ++ t) = true := by
  induction p with
  | nil => rfl
  | cons c cs ih => simp [hasPre, ih]

/-- Prefixes persist under extending the text on the right. -/
theorem hasPre_mono (p s t : Str) (h : hasPre p s = true) :
    hasPre p (s ++ t) = true := by
  induction p generalizing s with
  | nil => rfl
  | cons c cs ih =>
    cases s with
    | nil => exact absurd h (by simp [hasPre])
    | cons d ds =>
      simp only [hasPre, Bool.and_eq_true, decide_eq_true_eq] at h ⊢
      exact ⟨h.1, ih ds h.2⟩

/-- The empty pattern occurs in every string. -/
theorem hasSub_nil_pat (t : Str) : hasSub ([] : Str) t = true := by
  cases t <;> simp [hasSub, hasPre]

/-- A prefix occurrence is an occurrence. -/
theorem hasSub_of_hasPre (p s : Str) (h : hasPre p s = true) :
    hasSub p s = true := by
  cases s with
  | nil =>
    cases p with
    | nil => rfl
    | cons c cs => exact absurd h (by simp [hasPre])
  | cons c cs => simp [hasSub, h]

/-- Occurrences persist under extending the text on the right. -/
theorem hasSub_append_left (p a b : Str) (h : hasSub p a = true) :
    hasSub p (a ++ b) = true := by
  induction a with
  | nil =>
    have : p = [] := by simpa [hasSub] using h
    subst this
    exact hasSub_nil_pat b
  | cons c cs ih =>
    simp only [hasSub, Bool.or_eq_true] at h
    rcases h with h | h
    · simp only [List.cons_append, hasSub, Bool.or_eq_true]
      exact Or.inl (hasPre_mono p (c :: cs) b h)
    · simp only [List.cons_append, hasSub, Bool.or_eq_true]
      exact Or.inr (ih h)

/-- Occurrences persist under extending the text on the left. -/
theorem hasSub_append_right (p a b : Str) (h : hasSub p b = true) :
    hasSub p (a ++ b) = true := by
  induction a with
  | nil => simpa using h
  | cons c cs ih =>
    simp only [List.cons_append, hasSub, Bool.or_eq_true]
    exact Or.inr ih

/-- Occurrences persist under prepending one character. -/
theorem hasSub_cons_of (p : Str) (c : Char) (t : Str) (h : hasSub p t = true) :
    hasSub p (c :: t) = true := by
  show (hasPre p (c :: t) || hasSub p t) = true
  rw [h, Bool.or_true]

/-- Characters that `json.dumps` passes through unescaped: printable ASCII
other than the quote and the backslash. -/
def jsonPlain (c : Char) : Bool :=
  c ≠ '"' && c ≠ '\\' && 0x20 ≤ c.toNat && c.toNat ≤ 0x7e

/-- A plain character is serialized as itself. -/
theorem jsonEscChar_plain (c : Char) (h : jsonPlain c = true) :
    jsonEscChar c = [c] := by
  simp only [jsonPlain, Bool.and_eq_true, decide_eq_true_eq, ne_eq] at h
  obtain ⟨⟨⟨hq, hbs⟩, hlo⟩, hhi⟩ := h
  have hn : c ≠ '\n' := by
    intro hc
    rw [hc] at hlo
    simp at hlo
  have hr : c ≠ '\r' := by
    intro hc
    rw [hc] at hlo
    simp at hlo
  have ht : c ≠ '\t' := by
    intro hc
    rw [hc] at hlo
    simp at hlo
  have hb : ¬ c.toNat = 8 := by omega
  have hf : ¬ c.toNat = 12 := by omega
  simp [jsonEscChar, hq, hbs, hn, hr, ht, hb, hf, hlo, hhi]

/-- A string of plain characters is serialized verbatim inside its quotes. -/
theorem flatMap_jsonEscChar_plain (v : Str) (hv : v.all jsonPlain = true) :
    v.flatMap jsonEscChar = v := by
  induction v with
  | nil => rfl
  | cons c cs ih =>
    simp only [List.all_cons, Bool.and_eq_true] at hv
    simp [List.flatMap_cons, jsonEscChar_plain c hv.1, ih hv.2]

mutual

/-- Does the string `v` occur as a (whole) string leaf of the JSON value? -/
def jsonHasStr (v : Str) : Json → Bool
  | .str s => decide (s = v)
  | .arr items => jsonHasStrList v items
  | .obj fields => jsonHasStrFields v fields
  | _ => false

/-- `jsonHasStr` over the elements of an array. -/
def jsonHasStrList (v : Str) : List Json → Bool
  | [] => false
  | x :: xs => jsonHasStr v x || jsonHasStrList v xs

/-- `jsonHasStr` over the values of an object. -/
def jsonHasStrFields (v : Str) : List (Str × Json) → Bool
  | [] => false
  | f :: fs => jsonHasStr v f.2 || jsonHasStrFields v fs

end

mutual

/-- A plain string leaf of a JSON value occurs verbatim in its
`json.dumps(..., indent=2)` serialization. -/
theorem hasSub_jsonDumps (v : Str) (hv : v.all jsonPlain = true) :
    ∀ (lvl : Nat) (j : Json), jsonHasStr v j = true →
      hasSub v (jsonDumps lvl j) = true
  | lvl, .str s, h => by
    have hs : s = v := by simpa [jsonHasStr] using h
    subst hs
    simp only [jsonDumps, dumpJStr]
    rw [flatMap_jsonEscChar_plain s hv]
    exact hasSub_cons_of _ _ _ (hasSub_of_hasPre _ _ (hasPre_append_self s ['"']))
  | lvl, .arr (x :: xs), h => by
    have h' : jsonHasStr v x = true ∨ jsonHasStrList v xs = true := by
      simpa [jsonHasStr, jsonHasStrList] using h
    simp only [jsonDumps, List.append_assoc]
    apply hasSub_cons_of
    refine hasSub_append_right _ _ _ ?_
    rcases h' with h' | h'
    · exact hasSub_append_left _ _ _ (hasSub_jsonDumps v hv (lvl + 1) x h')
    · exact hasSub_append_right _ _ _
        (hasSub_append_left _ _ _ (hasSub_jsonDumpsArr v hv (lvl + 1) xs h'))
  | lvl, .obj (f :: fs), h => by
    have h' : jsonHasStr v f.2 = true ∨ jsonHasStrFields v fs = true := by
      simpa [jsonHasStr, jsonHasStrFields] using h
    simp only [jsonDumps, List.append_assoc]
    apply hasSub_cons_of
    refine hasSub_append_right _ _ _ (hasSub_append_right _ _ _
      (hasSub_append_right _ _ _ ?_))
    rcases h' with h' | h'
    · exact hasSub_append_left _ _ _ (hasSub_jsonDumps v hv (lvl + 1) f.2 h')
    · exact hasSub_append_right _ _ _
        (hasSub_append_left _ _ _ (hasSub_jsonDumpsObj v hv (lvl + 1) fs h'))
  | _, .null, h => by simp [jsonHasStr] at h
  | _, .bool b, h => by simp [jsonHasStr] at h
  | _, .num n, h => by simp [jsonHasStr] at h
  | _, .arr [], h => by simp [jsonHasStr, jsonHasStrList] at h
  | _, .obj [], h => by simp [jsonHasStr, jsonHasStrFields] at h

/-- The array-tail version of `hasSub_jsonDumps`. -/
theorem hasSub_jsonDumpsArr (v : Str) (hv : v.all jsonPlain = true) :
    ∀ (lvl : Nat) (xs : List Json), jsonHasStrList v xs = true →
      hasSub v (jsonDumpsArr lvl xs) = true
  | lvl, [], h => by simp [jsonHasStrList] at h
  | lvl, x :: xs, h => by
    have h' : jsonHasStr v x = true ∨ jsonHasStrList v xs = true := by
      simpa [jsonHasStrList] using h
    simp only [jsonDumpsArr, List.append_assoc]
    apply hasSub_cons_of
    refine hasSub_append_right _ _ _ ?_
    rcases h' with h' | h'
    · exact hasSub_append_left _ _ _ (hasSub_jsonDumps v hv lvl x h')
    · exact hasSub_append_right _ _ _ (hasSub_jsonDumpsArr v hv lvl xs h')

/-- The object-tail version of `hasSub_jsonDumps`. -/
theorem hasSub_jsonDumpsObj (v : Str) (hv : v.all jsonPlain = true) :
    ∀ (lvl : Nat) (fs : List (Str × Json)), jsonHasStrFields v fs = true →
      hasSub v (jsonDumpsObj lvl fs) = true
  | lvl, [], h => by simp [jsonHasStrFields] at h
  | lvl, f :: fs, h => by
    have h' : jsonHasStr v f.2 = true ∨ jsonHasStrFields v fs = true := by
      simpa [jsonHasStrFields] using h
    simp only [jsonDumpsObj, List.append_assoc]
    apply hasSub_cons_of
    refine hasSub_append_right _ _ _ (hasSub_append_right _ _ _
      (hasSub_append_right _ _ _ ?_))
    rcases h' with h' | h'
    · exact hasSub_append_left _ _ _ (hasSub_jsonDumps v hv lvl f.2 h')
    · exact hasSub_append_right _ _ _ (hasSub_jsonDumpsObj v hv lvl fs h')

end

/-- A string leaf in some element is a string leaf of the list. -/
theorem jsonHasStrList_of_mem {v : Str} {x : Json} {xs : List Json}
    (hx : x ∈ xs) (h : jsonHasStr v x = true) : jsonHasStrList v xs = true := by
  induction xs with
  | nil => cases hx
  | cons y ys ih =>
    rcases List.mem_cons.mp hx with rfl | hx'
    · simp [jsonHasStrList, h]
    · simp [jsonHasStrList, ih hx']

/-- A string leaf in some field value is a string leaf of the object. -/
theorem jsonHasStrFields_of_mem {v k : Str} {jv : Json} {fs : List (Str × Json)}
    (hx : (k, jv) ∈ fs) (h : jsonHasStr v jv = true) :
    jsonHasStrFields v fs = true := by
  induction fs with
  | nil => cases hx
  | cons f fs ih =>
    rcases List.mem_cons.mp hx with rfl | hx'
    · simp [jsonHasStrFields, h]
    · simp [jsonHasStrFields, ih hx']

/-- A successful dictionary lookup exhibits a member. -/
theorem dictGet?_some_mem {d : List (Str × Str)} {k v : Str}
    (h : dictGet? d k = some v) : (k, v) ∈ d := by
  unfold dictGet? at h
  cases hf : d.find? (fun p => p.1 = k) with
  | none =>
    rw [hf] at h
    exact Option.noConfusion h
  | some p =>
    rw [hf] at h
    obtain ⟨p1, p2⟩ := p
    have hmem := List.mem_of_find?_eq_some hf
    have hpred := List.find?_some hf
    simp only [decide_eq_true_eq] at hpred
    simp only [Option.map_some'] at h
    cases h
    cases hpred
    exact hmem

/-- Lookup at the head key. -/
theorem dictGet?_cons_self (k v : Str) (d : List (Str × Str)) :
    dictGet? ((k, v) :: d) k = some v := by
  simp [dictGet?, List.find?]

/-- Lookup skips a head with a different key. -/
theorem dictGet?_cons_ne (k' w k : Str) (d : List (Str × Str)) (h : k' ≠ k) :
    dictGet? ((k', w) :: d) k = dictGet? d k := by
  simp [dictGet?, List.find?, h]

/-- Looking up a projected key in the allow-list projection of a dictionary
recovers the original value. -/
theorem dictGet?_filterMap_keys :
    ∀ (ks : List Str), ks.Nodup → ∀ (k v : Str) (d : List (Str × Str)),
      k ∈ ks → dictGet? d k = some v →
      dictGet? (ks.filterMap (fun q => (dictGet? d q).map (fun w => (q, w)))) k =
        some v := by
  intro ks
  induction ks with
  | nil =>
    intro _ k v d hk
    cases hk
  | cons k0 ks ih =>
    intro hnd k v d hk hget
    rcases List.mem_cons.mp hk with rfl | hk'
    · simp only [List.filterMap_cons, hget, Option.map_some']
      exact dictGet?_cons_self k v _
    · have hne : k0 ≠ k := by
        intro he
        subst he
        exact (List.nodup_cons.mp hnd).1 hk'
      have htail := ih (List.nodup_cons.mp hnd).2 k v d hk' hget
      cases hd0 : dictGet? d k0 with
      | none => simpa [List.filterMap_cons, hd0] using htail
      | some w =>
        simp only [List.filterMap_cons, hd0, Option.map_some']
        rw [dictGet?_cons_ne k0 w k _ hne]
        exact htail

/-- A string leaf among the retained header values is a string leaf of the
serialized candidate. -/
theorem jsonHasStr_compressedToJson {v k : Str} (c : Compressed)
    (h : (k, v) ∈ c.headers) : jsonHasStr v (compressedToJson c) = true := by
  have hh : jsonHasStrFields v (c.headers.map (fun p => (p.1, Json.str p.2))) = true := by
    have hmem : (k, Json.str v) ∈ c.headers.map (fun p => (p.1, Json.str p.2)) :=
      List.mem_map.mpr ⟨(k, v), h, rfl⟩
    exact jsonHasStrFields_of_mem hmem (by simp [jsonHasStr])
  simp [compressedToJson, jsonHasStr, jsonHasStrFields, hh]

/-- Every member of a list appears in its enumeration from any start. -/
theorem exists_mem_enumFrom {α : Type} {r : α} :
    ∀ {l : List α}, r ∈ l → ∀ n : Nat, ∃ i, (i, r) ∈ l.enumFrom n := by
  intro l
  induction l with
  | nil =>
    intro h
    cases h
  | cons a l ih =>
    intro h n
    rcases List.mem_cons.mp h with rfl | h'
    · exact ⟨n, by simp [List.enumFrom]⟩
    · obtain ⟨i, hi⟩ := ih h' (n + 1)
      exact ⟨i, by simp [List.enumFrom, hi]⟩

/-- C10: masking is a command-build-time concern only: a retained sensitive
header reaches the compressed candidate with its original value unchanged,
and that value is serialized verbatim (for values needing no JSON escaping)
into the outbound oracle prompt. -/
theorem C10_unmasked_values_to_oracle :
    ∀ (r : Exchange) (i : Nat) (k v : Str) (reqs : List Exchange)
      (description : Str),
      k ∈ [("authorization".data : Str), "cookie".data, "x-api-key".data,
        "x-auth-token".data] →
      dictGet? r.headers k = some v →
      v.all jsonPlain = true →
      is_sensitive_header k = true ∧
      dictGet? (compress_request_for_analysis r i).headers k = some v ∧
      (r ∈ reqs →
        hasSub v (create_user_prompt (compressAll reqs) description) = true) := by
  intro r i k v reqs description hk hget hplain
  have hk4 : k = "authorization".data ∨ k = "cookie".data ∨
      k = "x-api-key".data ∨ k = "x-auth-token".data := by
    simpa using hk
  have hsens : is_sensitive_header k = true := by
    rcases hk4 with rfl | rfl | rfl | rfl <;> decide
  have himp : k ∈ important_header_keys := by
    rcases hk4 with rfl | rfl | rfl | rfl <;> decide
  have hcompAt : ∀ j : Nat,
      dictGet? (compress_request_for_analysis r j).headers k = some v := by
    intro j
    have := dictGet?_filterMap_keys important_header_keys (by decide) k v
      r.headers himp hget
    simpa [compress_request_for_analysis] using this
  refine ⟨hsens, hcompAt i, ?_⟩
  intro hr
  obtain ⟨i', hi'⟩ := exists_mem_enumFrom hr 0
  have hcm : compress_request_for_analysis r i' ∈ compressAll reqs := by
    unfold compressAll
    exact List.mem_map.mpr ⟨(i', r), by simpa [List.enum] using hi', rfl⟩
  have hkv : (k, v) ∈ (compress_request_for_analysis r i').headers :=
    dictGet?_some_mem (hcompAt i')
  have hjs : jsonHasStr v (compressedToJson (compress_request_for_analysis r i')) =
      true := jsonHasStr_compressedToJson _ hkv
  have hlist : jsonHasStrList v ((compressAll reqs).map compressedToJson) = true :=
    jsonHasStrList_of_mem (List.mem_map.mpr ⟨_, hcm, rfl⟩) hjs
  have harr : jsonHasStr v (.arr ((compressAll reqs).map compressedToJson)) = true := by
    simp [jsonHasStr, hlist]
  have hdump := hasSub_jsonDumps v hplain 0 _ harr
  simp only [create_user_prompt, List.append_assoc]
  exact hasSub_append_right _ _ _ (hasSub_append_right _ _ _
    (hasSub_append_right _ _ _ (hasSub_append_left _ _ _ hdump)))

/-- An exchange carrying a sensitive authorization header. -/
def ex10 : Exchange :=
  { sampleExchange with
      headers := [("authorization".data, "Bearer secret12345".data)] }

theorem C10_unmasked_values_to_oracle_witness :
    is_sensitive_header ("authorization".data) = true ∧
    dictGet? (compress_request_for_analysis ex10 0).headers
      ("authorization".data) = some ("Bearer secret12345".data) ∧
    hasSub ("Bearer secret12345".data)
      (create_user_prompt (compressAll [ex10]) ("the login call".data)) = true := by
  obtain ⟨h1, h2, h3⟩ := C10_unmasked_values_to_oracle ex10 0
    ("authorization".data) ("Bearer secret12345".data) [ex10]
    ("the login call".data) (by decide) (by decide) (by decide)
  exact ⟨h1, h2, h3 (by simp)⟩

/-- CRLF, the line separator of the synthetic outputs. -/
def crlf : Str := "\r\n".data

/-- The CRLF-CRLF header/body boundary (reducible, so that statements about
it unify with the literal in `parse_curl_response`). -/
abbrev crlf2 : Str := "\r\n\r\n".data

/-- The status marker exactly as `-w` renders it for status `n`. -/
def markerStr (n : Nat) : Str := markerLit ++ natDigits n ++ "---".data

/-- One header line, `name: value`. -/
def hline (h : Str × Str) : Str := h.1 ++ ": ".data ++ h.2

/-- The header block: status line, then one line per header, CRLF-joined. -/
def headerBlock (statusLine : Str) (hs : List (Str × Str)) : Str :=
  sepJoin crlf (statusLine :: hs.map hline)

/-- Header block, boundary, body and the newline preceding the marker. -/
def headerBody (statusLine : Str) (hs : List (Str × Str)) (b : Str) : Str :=
  headerBlock statusLine hs ++ (crlf2 ++ (b ++ ['\n']))

/-- A synthetic curl output: header block, boundary, body, then the status
marker on its own line, as produced by the enhanced curl invocation. -/
def synthOutput (statusLine : Str) (hs : List (Str × Str)) (b : Str) (n : Nat) :
    Str :=
  headerBody statusLine hs b ++ (markerStr n ++ ['\n'])

/-- Every digit character is a digit. -/
theorem digitChar_isDigit : ∀ d : Nat, isDigit (digitChar d) = true
  | 0 => rfl
  | 1 => rfl
  | 2 => rfl
  | 3 => rfl
  | 4 => rfl
  | 5 => rfl
  | 6 => rfl
  | 7 => rfl
  | 8 => rfl
  | _ + 9 => rfl

/-- Digit characters decode to their value. -/
theorem digitVal_digitChar (d : Nat) (h : d < 10) : digitVal (digitChar d) = d := by
  interval_cases d <;> decide

/-- A decimal rendering is never empty. -/
theorem natDigits_ne_nil (n : Nat) : natDigits n ≠ [] := by
  unfold natDigits
  split
  · simp
  · simp

/-- A decimal rendering consists of digits. -/
theorem natDigits_all_digit (n : Nat) : (natDigits n).all isDigit = true := by
  induction n using Nat.strong_induction_on with
  | _ n ih =>
    unfold natDigits
    split
    · simp [digitChar_isDigit]
    · next h =>
      have hlt : n / 10 < n := Nat.div_lt_self (by omega) (by omega)
      simp [List.all_append, ih (n / 10) hlt, digitChar_isDigit]

/-- Folding in one more digit. -/
theorem digitsToNat_append_digit (xs : Str) (c : Char) :
    digitsToNat (xs ++ [c]) = 10 * digitsToNat xs + digitVal c := by
  simp [digitsToNat, List.foldl_append]

/-- `int` undoes the decimal rendering. -/
theorem digitsToNat_natDigits (n : Nat) : digitsToNat (natDigits n) = n := by
  induction n using Nat.strong_induction_on with
  | _ n ih =>
    unfold natDigits
    split
    · next h => simp [digitsToNat, digitVal_digitChar n h]
    · next h =>
      have hlt : n / 10 < n := Nat.div_lt_self (by omega) (by omega)
      rw [digitsToNat_append_digit, ih (n / 10) hlt,
        digitVal_digitChar (n % 10) (Nat.mod_lt n (by omega))]
      omega

/-- The maximal digit run of a digit string followed by a non-digit is the
digit string itself. -/
theorem takeWhile_digits_append (ds : Str) (h : ds.all isDigit = true)
    (c : Char) (hc : isDigit c = false) (t : Str) :
    (ds ++ c :: t).takeWhile isDigit = ds := by
  induction ds with
  | nil => simp [List.takeWhile_cons, hc]
  | cons d ds ih =>
    simp only [List.all_cons, Bool.and_eq_true] at h
    simp [List.takeWhile_cons, h.1, ih h.2]

/-- The regex matches the rendered marker at its own head, consuming exactly
the marker. -/
theorem matchMarker?_markerStr (n : Nat) (tail : Str) :
    matchMarker? (markerStr n ++ tail) = some (n, tail) := by
  unfold matchMarker? markerStr
  have hshape : (markerLit ++ natDigits n ++ "---".data) ++ tail =
      markerLit ++ (natDigits n ++ ('-' :: ('-' :: ('-' :: tail)))) := by
    simp [List.append_assoc]
  rw [hshape]
  rw [if_pos (hasPre_append_self markerLit _)]
  rw [List.drop_left]
  dsimp only
  rw [takeWhile_digits_append (natDigits n) (natDigits_all_digit n) '-' rfl _]
  rw [List.drop_left]
  rw [if_pos ⟨natDigits_ne_nil n, hasPre_append_self ("---".data) tail⟩]
  rw [digitsToNat_natDigits]
  rfl

/-- The rendered marker is non-empty. -/
theorem markerStr_ne_nil (n : Nat) : markerStr n ++ ['\n'] ≠ [] := by
  simp [markerStr]

/-- Searching skips a marker-free prefix. -/
theorem searchMarker?_append_of_none (pre rest : Str)
    (h : ∀ i, i < pre.length → matchMarker? ((pre ++ rest).drop i) = none) :
    searchMarker? (pre ++ rest) = searchMarker? rest := by
  induction pre with
  | nil => simp
  | cons c pre ih =>
    have h0 := h 0 (by simp)
    simp only [List.drop_zero, List.cons_append] at h0
    show searchMarker? (c :: (pre ++ rest)) = searchMarker? rest
    rw [searchMarker?]
    split
    · next p hp =>
      rw [h0] at hp
      exact Option.noConfusion hp
    · exact ih (fun i hi => by
        have := h (i + 1) (by simpa using Nat.succ_lt_succ hi)
        simpa using this)

/-- Searching a string whose head matches returns that match. -/
theorem searchMarker?_of_match (s : Str) (n : Nat) (after : Str)
    (hs : s ≠ []) (hm : matchMarker? s = some (n, after)) :
    searchMarker? s = some n := by
  cases s with
  | nil => exact absurd rfl hs
  | cons c rest => rw [searchMarker?, hm]

/-- Removal leaves a marker-free prefix untouched. -/
theorem removeMarkers_append_of_none (pre rest : Str)
    (h : ∀ i, i < pre.length → matchMarker? ((pre ++ rest).drop i) = none) :
    removeMarkers (pre ++ rest) = pre ++ removeMarkers rest := by
  induction pre with
  | nil => simp
  | cons c pre ih =>
    have h0 := h 0 (by simp)
    simp only [List.drop_zero, List.cons_append] at h0
    show removeMarkers (c :: (pre ++ rest)) = c :: (pre ++ removeMarkers rest)
    rw [removeMarkers]
    split
    · next p hp =>
      rw [h0] at hp
      exact Option.noConfusion hp
    · rw [ih (fun i hi => by
        have := h (i + 1) (by simpa using Nat.succ_lt_succ hi)
        simpa using this)]

/-- Removal consumes a matching head and its trailing whitespace. -/
theorem removeMarkers_of_match (s : Str) (n : Nat) (after : Str)
    (hs : s ≠ []) (hm : matchMarker? s = some (n, after)) :
    removeMarkers s = removeMarkers (after.dropWhile isPyWs) := by
  cases s with
  | nil => exact absurd rfl hs
  | cons c rest => rw [removeMarkers, hm]

/-- Removing the markers of a synthetic tail erases it completely. -/
theorem removeMarkers_markerTail (n : Nat) :
    removeMarkers (markerStr n ++ ['\n']) = [] := by
  rw [removeMarkers_of_match _ n ['\n'] (markerStr_ne_nil n)
    (matchMarker?_markerStr n ['\n'])]
  rw [show List.dropWhile isPyWs ['\n'] = [] from rfl]
  rw [removeMarkers]

/-- Splitting at the first separator occurrence, when the prefix before it
is occurrence-free. -/
theorem splitOnceSub?_at (sep a rest : Str) (hsep : sep ≠ [])
    (h : ∀ i, i < a.length → hasPre sep ((a ++ (sep ++ rest)).drop i) = false) :
    splitOnceSub? sep (a ++ (sep ++ rest)) = some (a, rest) := by
  induction a with
  | nil =>
    simp only [List.nil_append]
    cases hsr : sep ++ rest with
    | nil =>
      exact absurd (List.append_eq_nil.mp hsr).1 hsep
    | cons c t =>
      rw [splitOnceSub?]
      rw [if_pos (by rw [← hsr]; exact hasPre_append_self sep rest)]
      rw [← hsr, List.drop_left]
  | cons c a ih =>
    have h0 := h 0 (by simp)
    simp only [List.drop_zero, List.cons_append] at h0
    show splitOnceSub? sep (c :: (a ++ (sep ++ rest))) = some (c :: a, rest)
    rw [splitOnceSub?, if_neg (by simp [h0])]
    rw [ih (fun i hi => by
      have := h (i + 1) (by simpa using Nat.succ_lt_succ hi)
      simpa using this)]
    rfl

/-- Splitting a separator-free string returns it whole. -/
theorem splitOnChar_not_mem (c : Char) (s : Str) (h : c ∉ s) :
    splitOnChar c s = [s] := by
  induction s with
  | nil => rfl
  | cons d t ih =>
    have hd : d ≠ c := fun he => h (he ▸ List.mem_cons_self d t)
    have ht : c ∉ t := fun hm => h (List.mem_cons_of_mem d hm)
    rw [splitOnChar, if_neg (by simpa using hd), ih ht]

/-- Splitting at the first separator, when the prefix is separator-free. -/
theorem splitOnChar_append_sep (c : Char) (a b : Str) (h : c ∉ a) :
    splitOnChar c (a ++ c :: b) = a :: splitOnChar c b := by
  induction a with
  | nil =>
    show splitOnChar c (c :: b) = [] :: splitOnChar c b
    rw [splitOnChar, if_pos rfl]
  | cons d t ih =>
    have hd : d ≠ c := fun he => h (he ▸ List.mem_cons_self d t)
    have ht : c ∉ t := fun hm => h (List.mem_cons_of_mem d hm)
    show splitOnChar c (d :: (t ++ c :: b)) = (d :: t) :: splitOnChar c b
    rw [splitOnChar, if_neg (by simpa using hd), ih ht]

/-- The newline-split view of a CRLF-joined block: every line except the
last keeps a trailing carriage return. -/
def withCRs : List Str → List Str
  | [] => []
  | [l] => [l]
  | l :: l' :: t => (l ++ ['\r']) :: withCRs (l' :: t)

/-- Splitting a CRLF-joined block of CR/LF-free lines on newlines. -/
theorem splitOnChar_sepJoin_crlf :
    ∀ ls : List Str, ls ≠ [] → (∀ l ∈ ls, '\n' ∉ l ∧ '\r' ∉ l) →
      splitOnChar '\n' (sepJoin crlf ls) = withCRs ls
  | [], h, _ => absurd rfl h
  | [l], _, hc => by
    show splitOnChar '\n' l = [l]
    exact splitOnChar_not_mem '\n' l (hc l (by simp)).1
  | l :: l' :: t, _, hc => by
    show splitOnChar '\n' (l ++ crlf ++ sepJoin crlf (l' :: t)) =
      (l ++ ['\r']) :: withCRs (l' :: t)
    have hshape : l ++ crlf ++ sepJoin crlf (l' :: t) =
        (l ++ ['\r']) ++ '\n' :: sepJoin crlf (l' :: t) := by
      simp [crlf, List.append_assoc]
    rw [hshape]
    have hnl : '\n' ∉ l ++ ['\r'] := by
      intro hm
      rcases List.mem_append.mp hm with hm | hm
      · exact (hc l (by simp)).1 hm
      · simp at hm
    rw [splitOnChar_append_sep '\n' _ _ hnl]
    rw [splitOnChar_sepJoin_crlf (l' :: t) (by simp)
      (fun x hx => hc x (List.mem_cons_of_mem l hx))]

/-- Splitting a name-colon-rest line at its first colon. -/
theorem splitOnceChar?_colon (nm rest : Str) (h : ':' ∉ nm) :
    splitOnceChar? ':' (nm ++ ':' :: rest) = some (nm, rest) := by
  induction nm with
  | nil =>
    show splitOnceChar? ':' (':' :: rest) = some ([], rest)
    rw [splitOnceChar?, if_pos rfl]
  | cons d t ih =>
    have hd : d ≠ ':' := fun he => h (he ▸ List.mem_cons_self d t)
    have ht : ':' ∉ t := fun hm => h (List.mem_cons_of_mem d hm)
    show splitOnceChar? ':' (d :: (t ++ ':' :: rest)) = some (d :: t, rest)
    rw [splitOnceChar?, if_neg (by simpa using hd), ih ht]
    rfl

/-- Stripping ignores a leading whitespace character. -/
theorem pyStrip_ws_head (c : Char) (x : Str) (h : isPyWs c = true) :
    pyStrip (c :: x) = pyStrip x := by
  simp [pyStrip, List.dropWhile_cons, h]

/-- Stripping ignores a trailing whitespace character. -/
theorem pyStrip_ws_tail (c : Char) (x : Str) (h : isPyWs c = true) :
    pyStrip (x ++ [c]) = pyStrip x := by
  unfold pyStrip
  rw [List.dropWhile_append]
  cases hx : (x.dropWhile isPyWs).isEmpty with
  | true =>
    simp only [if_pos rfl]
    have : List.dropWhile isPyWs [c] = [] := by simp [List.dropWhile_cons, h]
    rw [this]
    rw [List.isEmpty_iff.mp hx]
    rfl
  | false =>
    rw [if_neg (by decide), List.reverse_append]
    show (List.dropWhile isPyWs (c :: (x.dropWhile isPyWs).reverse)).reverse = _
    rw [List.dropWhile_cons, if_pos (by simpa using h)]

/-- Inserting a fresh key appends. -/
theorem dictInsert_fresh (d : List (Str × Str)) (k v : Str)
    (h : ∀ p ∈ d, p.1 ≠ k) : dictInsert d k v = d ++ [(k, v)] := by
  induction d with
  | nil => rfl
  | cons p d ih =>
    rw [dictInsert, if_neg (h p (by simp))]
    rw [ih (fun q hq => h q (List.mem_cons_of_mem p hq))]
    rfl

/-- Parsing one rendered header line (with or without the carriage return
that the newline split leaves behind) inserts the lowercased name and the
value. -/
theorem parseHeaderStep_line (acc : List (Str × Str)) (h : Str × Str) (opt : Str)
    (hopt : opt = [] ∨ opt = ['\r'])
    (hcolon : ':' ∉ h.1) (hstrip1 : pyStrip h.1 = h.1)
    (hstrip2 : pyStrip h.2 = h.2) :
    parseHeaderStep acc (hline h ++ opt) = dictInsert acc (lowerStr h.1) h.2 := by
  have hshape : hline h ++ opt = h.1 ++ ':' :: (' ' :: (h.2 ++ opt)) := by
    simp [hline, List.append_assoc]
  rw [hshape]
  rw [parseHeaderStep, splitOnceChar?_colon h.1 _ hcolon]
  show dictInsert acc (lowerStr (pyStrip h.1)) (pyStrip (' ' :: (h.2 ++ opt))) = _
  have hval : pyStrip (' ' :: (h.2 ++ opt)) = h.2 := by
    rw [pyStrip_ws_head ' ' _ rfl]
    rcases hopt with rfl | rfl
    · rw [List.append_nil, hstrip2]
    · rw [pyStrip_ws_tail '\r' _ rfl, hstrip2]
  rw [hval, hstrip1]

/-- Folding the rendered header lines builds exactly the lowercased
association list, provided the lowercased names are fresh throughout. -/
theorem foldl_parseHeaderSteps :
    ∀ (hs : List (Str × Str)) (acc : List (Str × Str)),
      (∀ h ∈ hs, ':' ∉ h.1 ∧ pyStrip h.1 = h.1 ∧ pyStrip h.2 = h.2) →
      ((acc.map Prod.fst ++ hs.map (fun h => lowerStr h.1)).Nodup) →
      (withCRs (hs.map hline)).foldl parseHeaderStep acc =
        acc ++ hs.map (fun h => (lowerStr h.1, h.2))
  | [], acc, _, _ => by simp [withCRs]
  | [h], acc, hclean, hnd => by
    obtain ⟨hc, hs1, hs2⟩ := hclean h (by simp)
    show parseHeaderStep acc (hline h) = acc ++ [(lowerStr h.1, h.2)]
    rw [show hline h = hline h ++ [] from by simp]
    rw [parseHeaderStep_line acc h [] (Or.inl rfl) hc hs1 hs2]
    refine dictInsert_fresh acc (lowerStr h.1) h.2 (fun p hp he => ?_)
    have hdis := (List.nodup_append.mp hnd).2.2
    exact hdis (List.mem_map_of_mem Prod.fst hp) (by simp [he])
  | h :: h' :: t, acc, hclean, hnd => by
    obtain ⟨hc, hs1, hs2⟩ := hclean h (by simp)
    show (withCRs (hline h :: hline h' :: (t.map hline))).foldl
      parseHeaderStep acc = _
    rw [withCRs]
    rw [List.foldl_cons]
    rw [parseHeaderStep_line acc h ['\r'] (Or.inr rfl) hc hs1 hs2]
    have hfresh : ∀ p ∈ acc, p.1 ≠ lowerStr h.1 := by
      intro p hp he
      have hdis := (List.nodup_append.mp hnd).2.2
      exact hdis (List.mem_map_of_mem Prod.fst hp) (by simp [he])
    rw [dictInsert_fresh acc (lowerStr h.1) h.2 hfresh]
    have hnd' : (((acc ++ [(lowerStr h.1, h.2)]).map Prod.fst)
        ++ (h' :: t).map (fun x => lowerStr x.1)).Nodup := by
      have : ((acc ++ [(lowerStr h.1, h.2)]).map Prod.fst)
          ++ (h' :: t).map (fun x => lowerStr x.1) =
          acc.map Prod.fst ++ (lowerStr h.1 :: (h' :: t).map (fun x => lowerStr x.1)) := by
        simp
      rw [this]
      simpa using hnd
    have := foldl_parseHeaderSteps (h' :: t) (acc ++ [(lowerStr h.1, h.2)])
      (fun x hx => hclean x (List.mem_cons_of_mem h hx)) hnd'
    rw [show withCRs (hline h' :: t.map hline) =
      withCRs ((h' :: t).map hline) from by simp]
    rw [this]
    simp

/-- A CRLF-joined block headed by a non-empty status line is non-empty. -/
theorem headerBlock_ne_nil (statusLine : Str) (hs : List (Str × Str))
    (h : statusLine ≠ []) : headerBlock statusLine hs ≠ [] := by
  unfold headerBlock
  cases hs with
  | nil => simpa [sepJoin] using h
  | cons x t =>
    show statusLine ++ crlf ++ sepJoin crlf (hline x :: t.map hline) ≠ []
    simp [crlf, h]

/-- Decoding the header block of a synthetic output recovers the headers
with lowercased names. -/
theorem parseHeaderLines_synth (statusLine : Str) (hs : List (Str × Str))
    (hsl : statusLine ≠ []) (hsln : '\n' ∉ statusLine) (hslr : '\r' ∉ statusLine)
    (hclean : ∀ h ∈ hs, h.1 ≠ [] ∧ ':' ∉ h.1 ∧ '\n' ∉ h.1 ∧ '\r' ∉ h.1 ∧
      '\n' ∉ h.2 ∧ '\r' ∉ h.2 ∧ pyStrip h.1 = h.1 ∧ pyStrip h.2 = h.2)
    (hnd : (hs.map (fun h => lowerStr h.1)).Nodup) :
    parseHeaderLines (headerBlock statusLine hs) =
      hs.map (fun h => (lowerStr h.1, h.2)) := by
  unfold parseHeaderLines
  rw [if_neg (headerBlock_ne_nil statusLine hs hsl)]
  have hlinesclean : ∀ l ∈ statusLine :: hs.map hline, '\n' ∉ l ∧ '\r' ∉ l := by
    intro l hl
    rcases List.mem_cons.mp hl with rfl | hl'
    · exact ⟨hsln, hslr⟩
    · obtain ⟨x, hx, rfl⟩ := List.mem_map.mp hl'
      obtain ⟨-, -, hn1, hr1, hn2, hr2, -, -⟩ := hclean x hx
      constructor
      · intro hm
        rcases List.mem_append.mp hm with hm | hm
        · rcases List.mem_append.mp hm with hm | hm
          · exact hn1 hm
          · simp at hm
        · exact hn2 hm
      · intro hm
        rcases List.mem_append.mp hm with hm | hm
        · rcases List.mem_append.mp hm with hm | hm
          · exact hr1 hm
          · simp at hm
        · exact hr2 hm
  rw [show splitOnChar '\n' (headerBlock statusLine hs) =
    withCRs (statusLine :: hs.map hline) from
    splitOnChar_sepJoin_crlf (statusLine :: hs.map hline) (by simp) hlinesclean]
  have hdrop : (withCRs (statusLine :: hs.map hline)).drop 1 =
      withCRs (hs.map hline) := by
    cases hs with
    | nil => rfl
    | cons x t => rfl
  rw [hdrop]
  refine foldl_parseHeaderSteps hs [] (fun x hx => ?_) (by simpa using hnd)
  obtain ⟨-, hc, -, -, -, -, hs1p, hs2p⟩ := hclean x hx
  exact ⟨hc, hs1p, hs2p⟩

/-- C7: decoding is a round-trip inverse of output construction: a
synthetic output made of a status line, clean header lines, a body and the
injected status marker decodes to exactly the injected status, the header
pairs with lowercased names, and the trimmed body; an output without a
marker defaults to status 200; an output without any header/body boundary
becomes all body with empty headers. The two positional hypotheses state
that the marker pattern does not occur before the injected marker and that
the CRLF-CRLF boundary does not occur inside the header block. -/
theorem C7_decode_roundtrip :
    (∀ (statusLine : Str) (hs : List (Str × Str)) (b : Str) (n : Nat),
      statusLine ≠ [] → '\n' ∉ statusLine → '\r' ∉ statusLine →
      (∀ h ∈ hs, h.1 ≠ [] ∧ ':' ∉ h.1 ∧ '\n' ∉ h.1 ∧ '\r' ∉ h.1 ∧
        '\n' ∉ h.2 ∧ '\r' ∉ h.2 ∧ pyStrip h.1 = h.1 ∧ pyStrip h.2 = h.2) →
      (hs.map (fun h => lowerStr h.1)).Nodup →
      (∀ i, i < (headerBody statusLine hs b).length →
        matchMarker? ((synthOutput statusLine hs b n).drop i) = none) →
      (∀ i, i < (headerBlock statusLine hs).length →
        hasPre crlf2 ((headerBody statusLine hs b).drop i) = false) →
      parse_curl_response (synthOutput statusLine hs b n) =
        { status_code := n, headers := hs.map (fun h => (lowerStr h.1, h.2)),
          body := pyStrip b }) ∧
    (∀ out : Str, searchMarker? out = none →
      (parse_curl_response out).status_code = 200) ∧
    (∀ out : Str, splitOnceSub? crlf2 (removeMarkers out) = none →
      splitOnceSub? "\n\n".data (removeMarkers out) = none →
      parse_curl_response out =
        { status_code := (searchMarker? out).getD 200, headers := [],
          body := pyStrip (removeMarkers out) }) := by
  refine ⟨?_, ?_, ?_⟩
  · intro statusLine hs b n hsl hsln hslr hclean hnd hm hb
    have hsearch : searchMarker? (synthOutput statusLine hs b n) = some n := by
      rw [show synthOutput statusLine hs b n =
        headerBody statusLine hs b ++ (markerStr n ++ ['\n']) from rfl]
      rw [searchMarker?_append_of_none _ _ (fun i hi => hm i hi)]
      exact searchMarker?_of_match _ n ['\n'] (markerStr_ne_nil n)
        (matchMarker?_markerStr n ['\n'])
    have hremove : removeMarkers (synthOutput statusLine hs b n) =
        headerBody statusLine hs b := by
      rw [show synthOutput statusLine hs b n =
        headerBody statusLine hs b ++ (markerStr n ++ ['\n']) from rfl]
      rw [removeMarkers_append_of_none _ _ (fun i hi => hm i hi)]
      rw [removeMarkers_markerTail n]
      simp
    have hsplit : splitOnceSub? crlf2 (headerBody statusLine hs b) =
        some (headerBlock statusLine hs, b ++ ['\n']) := by
      exact splitOnceSub?_at crlf2 _ _ (by decide) (fun i hi => hb i hi)
    have hout : parse_curl_response (synthOutput statusLine hs b n) =
        { status_code := n,
          headers := parseHeaderLines (headerBlock statusLine hs),
          body := pyStrip (b ++ ['\n']) } := by
      unfold parse_curl_response
      dsimp only
      rw [hsearch, hremove, hsplit]
      rfl
    rw [hout, parseHeaderLines_synth statusLine hs hsl hsln hslr hclean hnd,
      pyStrip_ws_tail '\n' b rfl]
  · intro out h
    unfold parse_curl_response
    rw [h]
    dsimp only
    split <;> rfl
  · intro out h1 h2
    unfold parse_curl_response
    dsimp only
    rw [h1, h2]

/-- The status line of the concrete round-trip check. -/
def witnessStatusLine : Str := "HTTP/1.1 201 Created".data

/-- The headers of the concrete round-trip check (the second value contains
a colon, exercising the split-at-first-colon rule). -/
def witnessHeaders : List (Str × Str) :=
  [("Content-Type".data, "application/json".data),
   ("X-Trace".data, "abc:def".data)]

theorem C7_decode_roundtrip_witness :
    parse_curl_response
        (synthOutput witnessStatusLine witnessHeaders ("hello world".data) 201) =
      { status_code := 201,
        headers := witnessHeaders.map (fun h => (lowerStr h.1, h.2)),
        body := pyStrip ("hello world".data) } ∧
    (parse_curl_response ("no marker in sight".data)).status_code = 200 ∧
    parse_curl_response ("just a body".data) =
      { status_code := (searchMarker? ("just a body".data)).getD 200,
        headers := [],
        body := pyStrip (removeMarkers ("just a body".data)) } := by
  obtain ⟨h1, h2, h3⟩ := C7_decode_roundtrip
  have hrm : removeMarkers ("just a body".data) = "just a body".data := by
    have hskip := removeMarkers_append_of_none ("just a body".data) []
      (by decide)
    rw [List.append_nil] at hskip
    rw [hskip, removeMarkers, List.append_nil]
  refine ⟨h1 witnessStatusLine witnessHeaders ("hello world".data) 201
    (by decide) (by decide) (by decide) (by decide) (by decide)
    (by decide) (by decide), h2 _ (by decide), h3 _ ?_ ?_⟩
  · rw [hrm]
    decide
  · rw [hrm]
    decide
